import Mathlib

/-!
Verification development for the bidirectional S3 <-> local-filesystem sync
scripts (`scripts/aws/s3/sync_to_s3.py`, upload direction, and
`scripts/aws/s3/sync_from_s3.py`, download direction).

The shallow embedding below mirrors the Python source:
* paths, S3 keys and hex digests are `String`s (slash-normalized, as the
  scripts normalize them before any comparison);
* Python dicts that are only ever looked up / iterated are association lists
  in insertion order (`List (String × _)`), matching dict iteration order;
* the filename-similarity score of `difflib.SequenceMatcher.ratio()` is
  computed exactly, as a rational number 2*M/T (the float rounding performed
  by CPython cannot change any comparison the scripts make at the tiny
  denominators of file names);
* network and filesystem effects are reified as an `Event` trace; the
  transfer helpers succeed (transport-level exceptions are outside the model)
  and in dry-run mode they return success without emitting any event, exactly
  like the `if dry_run: return True` guards in the source.
-/

namespace S3Sync

/-- Models Python `str.startswith` (character-list prefix test). -/
def pyStarts (s p : String) : Bool := p.data.isPrefixOf s.data

/-- Models Python `str.endswith`. -/
def pyEnds (s p : String) : Bool := p.data.isSuffixOf s.data

/-- Models the Python slice `key[len(pre):]`. -/
def dropPre (pre key : String) : String := String.mk (key.data.drop pre.data.length)

/-- The repeated idiom
`rel = key[len(s3_prefix):] if s3_prefix and key.startswith(s3_prefix) else key`
(an empty prefix string is falsy in Python, hence the `pre != ""` test). -/
def stripPre (pre key : String) : String :=
  if pre != "" && pyStarts key pre then dropPre pre key else key

/-- `os.path.basename` for slash-normalized paths: the characters after the
last `/` (empty when the path ends in a separator). -/
def basenameS (s : String) : String :=
  String.mk ((s.data.reverse.takeWhile (fun c => c ≠ '/')).reverse)

/-- Does the string contain the character? (`c in s` in Python.) -/
def hasChar (c : Char) (s : String) : Bool := s.data.contains c

/-- `s.split('.')[-1]`: the characters after the last dot; the whole string
when there is no dot. -/
def splitDotLast (s : String) : String :=
  String.mk ((s.data.reverse.takeWhile (fun c => c ≠ '.')).reverse)

/-- The extension part of `os.path.splitext`: starts at the last dot of the
basename, provided some earlier character of the basename is not a dot
(so `.bashrc`-style names have an empty extension), empty otherwise. -/
def extOfB (b : List Char) : List Char :=
  if b.contains '.' then
    let rev := b.reverse
    let after := rev.takeWhile (fun c => c ≠ '.')
    let before := rev.drop (after.length + 1)
    if before.any (fun c => c ≠ '.') then '.' :: after.reverse else []
  else []

/-- `os.path.splitext(p)[1]` for slash-normalized paths. -/
def extOf (p : String) : String := String.mk (extOfB (basenameS p).data)

/-- Python `str.lower()` (ASCII inputs: file extensions). -/
def toLowerS (s : String) : String := String.mk (s.data.map Char.toLower)

/-! ## difflib.SequenceMatcher (no junk, short inputs)

`calculate_filename_similarity` calls
`difflib.SequenceMatcher(None, name1, name2).ratio()`.  File names are far
below the 200-character autojunk threshold, so the plain (junk-free)
semantics apply: `ratio = 2*M/T` where `M` is the total size of the matching
blocks found by recursive decomposition around the longest matching block,
and `T` the sum of the two lengths. -/

/-- Length of the common run of two character lists starting at their heads
(the size of a matching block anchored at a given index pair). -/
def commonRun : List Char → List Char → Nat
  | a :: as, b :: bs => if a = b then commonRun as bs + 1 else 0
  | _, _ => 0

/-- All anchored blocks `(i, j, run length)`. -/
def blockCands (a b : List Char) : List (Nat × Nat × Nat) :=
  (List.range a.length).flatMap fun i =>
    (List.range b.length).map fun j => (i, j, commonRun (a.drop i) (b.drop j))

/-- `find_longest_match` (documented contract, no junk): the longest matching
block; among equally long ones, the one starting earliest in `a`, then
earliest in `b`.  Keeping the first maximum of the ascending `(i, j)`
enumeration realizes exactly that tie-breaking rule. -/
def longestBlock (a b : List Char) : Nat × Nat × Nat :=
  (blockCands a b).foldl (fun best c => if best.2.2 < c.2.2 then c else best) (0, 0, 0)

/-- Total size of all matching blocks (`get_matching_blocks`), by the standard
recursive decomposition around the longest block.  The fuel argument serves
termination only; each recursive call strictly shrinks the combined length,
so `a.length + b.length + 1` initial fuel always reaches the fixpoint. -/
def matchTotalAux : Nat → List Char → List Char → Nat
  | 0, _, _ => 0
  | fuel + 1, a, b =>
    let t := longestBlock a b
    if t.2.2 = 0 then 0
    else
      matchTotalAux fuel (a.take t.1) (b.take t.2.1) + t.2.2 +
        matchTotalAux fuel (a.drop (t.1 + t.2.2)) (b.drop (t.2.1 + t.2.2))

/-- Total matching-block size of two character lists. -/
def matchTotal (a b : List Char) : Nat := matchTotalAux (a.length + b.length + 1) a b

/-- `calculate_filename_similarity(name1, name2)`: the exact rational value of
`SequenceMatcher(None, name1, name2).ratio()` (CPython returns `1.0` when both
strings are empty). -/
def similarity (s t : String) : ℚ :=
  let T := s.data.length + t.data.length
  if T = 0 then 1 else mkRat (Int.ofNat (2 * matchTotal s.data t.data)) T

/-! ## Data model -/

/-- A scanned local file record: the `{'hash': ..., 'size': ..., 'path': ...}`
dict produced by `scan_local_files` (hash = hex MD5 digest, path = the
absolute filesystem path of the file). -/
structure FileInfo where
  hash : String
  size : Nat
  path : String
  deriving DecidableEq, Repr

/-- One S3 listing entry: `{'Key': ..., 'ETag': ..., 'Size': ...}`.  The ETag
field stores the digest with the surrounding quotes already stripped, as the
scripts do (`.strip('"')`) at every read site. -/
structure S3Obj where
  key : String
  etag : String
  size : Nat
  deriving DecidableEq, Repr

/-- A folder marker: a zero-byte object whose key ends in `/`
(`key.endswith('/') and obj.get('Size', 0) == 0`). -/
def isMarker (o : S3Obj) : Bool := pyEnds o.key "/" && o.size == 0

/-- Append a value to the group of a key, keeping first-insertion order:
the Python `if k not in m: m[k] = []` / `m[k].append(v)` pattern. -/
def addToGroup {α : Type} (k : String) (v : α) :
    List (String × List α) → List (String × List α)
  | [] => [(k, [v])]
  | (k1, vs) :: rest =>
    if k1 = k then (k1, vs ++ [v]) :: rest else (k1, vs) :: addToGroup k v rest

/-- Build a `{key: [values]}` dict-of-lists in insertion order. -/
def groupPairs {α : Type} (xs : List (String × α)) : List (String × List α) :=
  xs.foldl (fun m kv => addToGroup kv.1 kv.2 m) []

/-! ## Rename detection -/

/-- One rename candidate.  Upload direction (`sync_to_s3.detect_renames`):
`src` is the old S3 key, `srcRel` its relative path, `tgt` the new local
relative path.  Download direction (`sync_from_s3.detect_renames`): `src` is
the old local relative path, `tgt` the new S3 relative path and `tgtKey` the
full new S3 key. -/
structure Cand where
  src : String
  tgt : String
  sim : ℚ
  srcRel : String
  tgtKey : String
  deriving DecidableEq, Repr

/-- The comparison used by
`potential_renames.sort(key=lambda x: x['similarity'], reverse=True)`:
descending similarity. -/
def candLe (a b : Cand) : Prop := b.sim ≤ a.sim

instance : DecidableRel candLe := fun a b => inferInstanceAs (Decidable (b.sim ≤ a.sim))

instance : IsTotal Cand candLe := ⟨fun a b => le_total b.sim a.sim⟩

instance : IsTrans Cand candLe := ⟨fun _ _ _ h1 h2 => le_trans h2 h1⟩

/-- Stable descending sort by similarity.  Insertion sort with the non-strict
descending relation is stable, hence agrees with CPython's stable `list.sort`
on every input. -/
def sortCands (l : List Cand) : List Cand := l.insertionSort candLe

/-- Upload-direction assignment loop (`sync_to_s3.detect_renames`, second
pass): a candidate is taken only when neither its S3 key
(`s3_key not in renames`) nor its local path
(`local_path not in claimed_local_files`) is claimed yet. -/
def greedy2 : List Cand → List Cand → List Cand
  | acc, [] => acc
  | acc, c :: cs =>
    if (acc.all fun d => d.src != c.src) && (acc.all fun d => d.tgt != c.tgt) then
      greedy2 (acc ++ [c]) cs
    else greedy2 acc cs

/-- Download-direction assignment loop (`sync_from_s3.detect_renames`, second
pass): only the local path (`local_path not in renames and
local_path not in claimed_local_files`) is checked; the S3 side is never
claimed. -/
def greedy1 : List Cand → List Cand → List Cand
  | acc, [] => acc
  | acc, c :: cs =>
    if acc.all fun d => d.src != c.src then greedy1 (acc ++ [c]) cs
    else greedy1 acc cs

/-- Hash → [(relative path, basename)] for local files not already in sync
(`sync_to_s3.detect_renames`, `local_hash_map`). -/
def localHashMapTo (localFiles : List (String × FileInfo)) (matched : List String) :
    List (String × List (String × String)) :=
  groupPairs ((localFiles.filter fun x => !matched.contains x.1).map
    fun x => (x.2.hash, (x.1, basenameS x.1)))

/-- Hash → [relative path] over ALL local files, matched ones included
(`all_local_hash_to_paths`). -/
def allLocalByHash (localFiles : List (String × FileInfo)) :
    List (String × List String) :=
  groupPairs (localFiles.map fun x => (x.2.hash, x.1))

/-- The S3 entries considered by `sync_to_s3.detect_renames`: folder markers,
keys whose relative path exists locally under the same name, empty ETags, and
objects whose hash equals an already-matched local file's hash are skipped. -/
def s3HashEntriesTo (localFiles : List (String × FileInfo)) (matched : List String)
    (objs : List S3Obj) (pre : String) :
    List (String × (String × String × String)) :=
  objs.filterMap fun o =>
    if isMarker o then none
    else
      let rel := stripPre pre o.key
      if (localFiles.map Prod.fst).contains rel then none
      else if o.etag == "" then none
      else
        match List.lookup o.etag (allLocalByHash localFiles) with
        | some paths =>
          if paths.any (fun p => matched.contains p) then none
          else some (o.etag, (o.key, rel, basenameS rel))
        | none => some (o.etag, (o.key, rel, basenameS rel))

/-- Hash → [(key, rel, basename)] for the surviving S3 entries
(`sync_to_s3.detect_renames`, `s3_hash_map`). -/
def s3HashMapTo (localFiles : List (String × FileInfo)) (matched : List String)
    (objs : List S3Obj) (pre : String) :
    List (String × List (String × String × String)) :=
  groupPairs (s3HashEntriesTo localFiles matched objs pre)

/-- All scored pairs at or above the threshold (`sync_to_s3.detect_renames`,
first pass over `s3_hash_map` × `local_hash_map`). -/
def candidatesTo (localFiles : List (String × FileInfo)) (objs : List S3Obj)
    (pre : String) (θ : ℚ) (matched : List String) : List Cand :=
  (s3HashMapTo localFiles matched objs pre).flatMap fun g =>
    match List.lookup g.1 (localHashMapTo localFiles matched) with
    | none => []
    | some les =>
      g.2.flatMap fun se =>
        les.filterMap fun le =>
          let s := similarity se.2.2 le.2
          if θ ≤ s then some ⟨se.1, le.1, s, se.2.1, ""⟩ else none

/-- `sync_to_s3.detect_renames`: score, filter at the threshold, stable sort
by descending similarity, then assign greedily claiming both sides. -/
def detectRenamesTo (localFiles : List (String × FileInfo)) (objs : List S3Obj)
    (pre : String) (θ : ℚ) (matched : List String) : List Cand :=
  greedy2 [] (sortCands (candidatesTo localFiles objs pre θ matched))

/-- Relative paths of all non-marker S3 objects (`s3_paths_set`). -/
def s3PathsFrom (objs : List S3Obj) (pre : String) : List String :=
  objs.filterMap fun o => if isMarker o then none else some (stripPre pre o.key)

/-- Hash → [(key, rel, basename)] over all non-marker S3 objects with a
non-empty ETag (`sync_from_s3.detect_renames`, `s3_hash_map`). -/
def s3HashMapFrom (objs : List S3Obj) (pre : String) :
    List (String × List (String × String × String)) :=
  groupPairs (objs.filterMap fun o =>
    if isMarker o then none
    else if o.etag == "" then none
    else some (o.etag, (o.key, stripPre pre o.key, basenameS (stripPre pre o.key))))

/-- Hash → [relative path] over all non-marker S3 objects with a non-empty
ETag (`all_s3_hash_to_paths`). -/
def allS3ByHash (objs : List S3Obj) (pre : String) : List (String × List String) :=
  groupPairs (objs.filterMap fun o =>
    if isMarker o then none
    else if o.etag == "" then none
    else some (o.etag, stripPre pre o.key))

/-- Hash → [(rel, basename)] for local files neither already in sync nor
present in S3 under the same name (`sync_from_s3.detect_renames`,
`local_hash_map`). -/
def localHashMapFrom (localFiles : List (String × FileInfo)) (matched : List String)
    (objs : List S3Obj) (pre : String) : List (String × List (String × String)) :=
  groupPairs ((localFiles.filter fun x =>
      !matched.contains x.1 && !(s3PathsFrom objs pre).contains x.1).map
    fun x => (x.2.hash, (x.1, basenameS x.1)))

/-- All scored pairs (`sync_from_s3.detect_renames`, first pass): a local
entry is dropped entirely when its hash also belongs to an already-matched
S3 relative path (the false-rename guard), and each surviving (local, S3)
pair is kept when the basename similarity reaches the threshold. -/
def candidatesFrom (localFiles : List (String × FileInfo)) (objs : List S3Obj)
    (pre : String) (θ : ℚ) (matched : List String) : List Cand :=
  (localHashMapFrom localFiles matched objs pre).flatMap fun g =>
    match List.lookup g.1 (s3HashMapFrom objs pre) with
    | none => []
    | some ses =>
      g.2.flatMap fun le =>
        if (match List.lookup g.1 (allS3ByHash objs pre) with
            | some paths => paths.any fun p => matched.contains p
            | none => false) then []
        else
          ses.filterMap fun se =>
            let s := similarity le.2 se.2.2
            if θ ≤ s then some ⟨le.1, se.2.1, s, "", se.1⟩ else none

/-- `sync_from_s3.detect_renames`: score, filter at the threshold, stable
sort by descending similarity, then assign greedily claiming the local side
only. -/
def detectRenamesFrom (localFiles : List (String × FileInfo)) (objs : List S3Obj)
    (pre : String) (θ : ℚ) (matched : List String) : List Cand :=
  greedy1 [] (sortCands (candidatesFrom localFiles objs pre θ matched))

/-! ## Execution model

Remote and filesystem mutations are reified as events.  `upload_file`,
`download_file`, `delete_s3_object` and `delete_local_file` all begin with
`if dry_run: return True`, so in dry-run mode they succeed without emitting
anything; otherwise they emit their mutation (directory creation performed
inside `download_file` is part of its event).  Transport-level failures are
outside the model, so every emitted operation succeeds and the `failed`
counter stays zero.  The interactive `input()` call of the download-direction
deletion gate is the `promptE` event, parameterized by the user's `answer`
(`none` models KeyboardInterrupt/EOFError). -/

inductive Event where
  | uploadE (key : String)
  | downloadE (key localPath : String)
  | deleteS3 (key : String)
  | deleteLocal (path : String)
  | promptE
  | reportSkippedDeletions
  deriving DecidableEq, Repr

/-- The per-path tallies returned by both sync executors
(`(uploaded/downloaded, updated, deleted, renamed, folders_deleted,
folders_added, failed)`). -/
structure Counts where
  transferred : Nat
  updated : Nat
  deleted : Nat
  renamed : Nat
  foldersDeleted : Nat
  foldersAdded : Nat
  failed : Nat
  deriving DecidableEq, Repr

/-- S3 objects keyed by relative path, folder markers excluded
(the `s3_files` map built at the top of both executors, no scope filter). -/
def s3FilesOf (objs : List S3Obj) (pre : String) : List (String × S3Obj) :=
  objs.filterMap fun o =>
    if isMarker o then none else some (stripPre pre o.key, o)

/-- Folder markers within scope (`s3_folder_markers`). -/
def markersOf (objs : List S3Obj) (scope : Option String) : List String :=
  objs.filterMap fun o =>
    if isMarker o then
      match scope with
      | none => some o.key
      | some sp => if pyStarts o.key sp then some o.key else none
    else none

/-- Local paths already in sync: same relative path on both sides with equal
hashes (`already_matched_files`). -/
def matchedOf (localFiles : List (String × FileInfo)) (s3Files : List (String × S3Obj)) :
    List String :=
  localFiles.filterMap fun x =>
    match List.lookup x.1 s3Files with
    | some o => if x.2.hash = o.etag then some x.1 else none
    | none => none

/-- Is the scope a directory scope?  `sync_scope_prefix and
sync_scope_prefix.endswith('/')` (None and the empty string are falsy). -/
def isDirScope (scope : Option String) : Bool :=
  match scope with
  | some sp => sp != "" && pyEnds sp "/"
  | none => false

/-- Tag for the two transfer outcomes of the per-file loops. -/
inductive Tag where
  | newT
  | updT
  deriving DecidableEq, Repr

/-- `s3_key = s3_prefix + rel_path if s3_prefix else rel_path`. -/
def mkKey (pre rel : String) : String := if pre != "" then pre ++ rel else rel

/-- Decision taken for one local file by the upload loop of `sync_to_s3`:
skip when already matched and not forcing; otherwise update when the file
exists in S3 and `force or local_hash != s3_hash`, upload as new when it does
not exist in S3.  Returns the S3 key to write. -/
def localActionTo (force : Bool) (s3Files : List (String × S3Obj))
    (matched : List String) (pre : String) (rel : String) (info : FileInfo) :
    Option (Tag × String) :=
  if matched.contains rel && !force then none
  else
    match List.lookup rel s3Files with
    | some o => if force || info.hash != o.etag then some (.updT, mkKey pre rel) else none
    | none => some (.newT, mkKey pre rel)

/-- The orphaned-file scan of `sync_to_s3` (lines 659-672): S3 entries whose
extension is skipped are never candidates, entries existing locally are kept,
and a surviving entry is an orphan only when its key lies within the sync
scope.  Each orphan is `(s3 key, relative path, size)`. -/
def orphanedKeysTo (localFiles : List (String × FileInfo))
    (s3Files : List (String × S3Obj)) (scope : Option String) :
    List (String × String × Nat) :=
  s3Files.filterMap fun x =>
    if toLowerS (extOf x.1) = ".psd" then none
    else if (localFiles.map Prod.fst).contains x.1 then none
    else
      match scope with
      | none => some (x.2.key, x.1, x.2.size)
      | some sp => if pyStarts x.2.key sp then some (x.2.key, x.1, x.2.size) else none

/-- `sync_to_s3(s3_client, bucket, local_dir, local_files, s3_objects,
s3_prefix, force, dry_run, sync_scope_prefix)`: the upload executor.  Rename
detection is disabled there (`renames = {}`, line 582), so the renamed tally
is always zero and no prompt of any kind is issued. -/
def syncToS3Run (localFiles : List (String × FileInfo)) (objs : List S3Obj)
    (pre : String) (force dryRun : Bool) (scope : Option String) :
    Counts × List Event :=
  let s3Files := s3FilesOf objs pre
  let markers := markersOf objs scope
  let matched := matchedOf localFiles s3Files
  let acts := localFiles.filterMap fun x => localActionTo force s3Files matched pre x.1 x.2
  let uploadedN := (acts.filter fun a => a.1 == Tag.newT).length
  let updatedN := (acts.filter fun a => a.1 == Tag.updT).length
  let folderIsNew := !localFiles.isEmpty && s3Files.isEmpty && isDirScope scope
  let foldersAddedN := if folderIsNew && uploadedN ≥ 1 then 1 else 0
  let orphans := orphanedKeysTo localFiles s3Files scope
  let deletedN := orphans.length
  let markerDeletes := if localFiles.isEmpty && !orphans.isEmpty then markers else []
  let foldersDeletedN :=
    if localFiles.isEmpty && !orphans.isEmpty && markerDeletes.length = 0 &&
        isDirScope scope then 1
    else markerDeletes.length
  let evUp := if dryRun then [] else acts.map fun a => Event.uploadE a.2
  let evDel := if dryRun then [] else orphans.map fun o => Event.deleteS3 o.1
  let evMark := if dryRun then [] else markerDeletes.map Event.deleteS3
  (⟨uploadedN, updatedN, deletedN, 0, foldersDeletedN, foldersAddedN, 0⟩,
    evUp ++ evDel ++ evMark)

/-- The local destination of a downloaded file: `local_base_path` itself for a
single-file sync, `os.path.join(local_base_path, rel_path)` for a directory
sync. -/
def localPathFor (isFileSync : Bool) (base rel : String) : String :=
  if isFileSync then base else base ++ "/" ++ rel

/-- Models `os.path.relpath(p, base)` for the only case this flow produces:
`scan_local_files` stores `path = join(base, rel)`, so `p` always lies under
`base` and the result is the remainder (the `..`-producing general cases do
not occur). -/
def relpathN (p base : String) : String :=
  if pyStarts p (base ++ "/") then dropPre (base ++ "/") p else p

/-- Decision taken for one S3 entry by the download loop of `sync_from_s3`:
skip entries claimed as rename targets; otherwise update when the file exists
locally and `force or local_hash != s3_hash`, download as new when it does
not.  Returns the key and the local destination. -/
def s3ActionFrom (force : Bool) (localFiles : List (String × FileInfo))
    (renameNewRels : List String) (isFileSync : Bool) (base : String)
    (rel : String) (o : S3Obj) : Option (Tag × String × String) :=
  if renameNewRels.contains rel then none
  else
    let lp := localPathFor isFileSync base rel
    match List.lookup rel localFiles with
    | some info => if force || info.hash != o.etag then some (.updT, o.key, lp) else none
    | none => some (.newT, o.key, lp)

/-- The orphaned-file scan of `sync_from_s3` (lines 704-732): local files not
claimed as rename sources and absent from S3.  For a directory sync the
candidate survives only when its reconstructed S3 key lies within scope; for
a single-file sync it is kept unconditionally.  Each orphan is
`(local absolute path, relative path, size)`. -/
def orphanedFrom (localFiles : List (String × FileInfo))
    (s3Files : List (String × S3Obj)) (renameOld : List String)
    (pre base : String) (isFileSync : Bool) (scope : Option String) :
    List (String × String × Nat) :=
  localFiles.filterMap fun x =>
    if renameOld.contains x.1 then none
    else if (List.lookup x.1 s3Files).isSome then none
    else
      match scope with
      | none => some (x.2.path, x.1, x.2.size)
      | some sp =>
        if !isFileSync then
          let checkKey := pre ++ relpathN x.2.path base
          if pyStarts checkKey sp then some (x.2.path, x.1, x.2.size) else none
        else some (x.2.path, x.1, x.2.size)

/-- `sync_from_s3(...)`: the download executor.  `answer` is the response to
the always-asked deletion confirmation (`some true` = yes, `some false` = any
other input, `none` = KeyboardInterrupt/EOFError); the prompt is skipped in
dry-run mode and when there are no orphans. -/
def syncFromS3Run (localFiles : List (String × FileInfo)) (objs : List S3Obj)
    (pre base : String) (isFileSync : Bool) (force dryRun : Bool)
    (scope : Option String) (answer : Option Bool) : Counts × List Event :=
  let s3Files := s3FilesOf objs pre
  let matched := matchedOf localFiles s3Files
  let renames := detectRenamesFrom localFiles objs pre (mkRat 7 10) matched
  let renameOld := renames.map Cand.src
  let renameNewRels := renames.map Cand.tgt
  let folderIsNew := !s3Files.isEmpty && localFiles.isEmpty && isDirScope scope
  let acts := s3Files.filterMap fun x =>
    s3ActionFrom force localFiles renameNewRels isFileSync base x.1 x.2
  let downloadedN := (acts.filter fun a => a.1 == Tag.newT).length
  let updatedN := (acts.filter fun a => a.1 == Tag.updT).length
  let foldersAddedN := if folderIsNew && downloadedN ≥ 1 then 1 else 0
  let renamedN := renames.length
  let evDown := if dryRun then [] else acts.map fun a => Event.downloadE a.2.1 a.2.2
  let evRen :=
    if dryRun then []
    else renames.flatMap fun r =>
      [Event.deleteLocal (match List.lookup r.src localFiles with
        | some info => info.path
        | none => r.src),
       Event.downloadE r.tgtKey (localPathFor isFileSync base r.tgt)]
  let orphans := orphanedFrom localFiles s3Files renameOld pre base isFileSync scope
  let doPrompt := !orphans.isEmpty && !dryRun
  let confirmed := answer == some true
  let orphansFinal := if doPrompt && !confirmed then [] else orphans
  let evPrompt :=
    if doPrompt then
      Event.promptE :: (if confirmed then [] else [Event.reportSkippedDeletions])
    else []
  let deletedN := orphansFinal.length
  let evDel := if dryRun then [] else orphansFinal.map fun o => Event.deleteLocal o.1
  let foldersDeletedN :=
    if !localFiles.isEmpty && s3Files.isEmpty && !orphansFinal.isEmpty &&
        isDirScope scope then 1
    else 0
  (⟨downloadedN, updatedN, deletedN, renamedN, foldersDeletedN, foldersAddedN, 0⟩,
    evDown ++ evRen ++ evPrompt ++ evDel)

/-- The `--yes` branch of the upload `sync_single_path` (lines 1055-1060):
preview and confirmation are skipped and the executor runs immediately with
`dry_run=False`. -/
def uploadYesRun (localFiles : List (String × FileInfo)) (objs : List S3Obj)
    (pre : String) (force : Bool) (scope : Option String) : Counts × List Event :=
  syncToS3Run localFiles objs pre force false scope

/-- The `--yes` branch of the download `sync_single_path` (lines 1117-1124):
the executor runs immediately with `dry_run=False` (only its internal
deletion gate can still ask). -/
def downloadYesRun (localFiles : List (String × FileInfo)) (objs : List S3Obj)
    (pre base : String) (isFileSync : Bool) (force : Bool)
    (scope : Option String) (answer : Option Bool) : Counts × List Event :=
  syncFromS3Run localFiles objs pre base isFileSync force false scope answer

/-! ## Preview (plan) computation of `sync_single_path` -/

/-- The scope-filtered `s3_files` preview map of the upload direction
(`sync_to_s3.sync_single_path` lines 863-875): folder markers and keys
outside the sync scope are dropped; the rest is keyed by relative path with
its ETag.  The scope here is a plain string (an empty string is falsy and
disables the filter, as in Python). -/
def previewS3FilesTo (objs : List S3Obj) (pre scopeS : String) :
    List (String × String) :=
  objs.filterMap fun o =>
    if isMarker o then none
    else if scopeS != "" && !pyStarts o.key scopeS then none
    else some (stripPre pre o.key, o.etag)

/-- The upload-direction plan sets. -/
structure PlanTo where
  newFiles : List String
  changed : List String
  orphaned : List String
  deriving DecidableEq, Repr

/-- The upload-direction plan (`sync_to_s3.sync_single_path` lines 877-904).
`changed` lists every co-present file when `force` is set (line 883); the
rename list is empty by construction (line 898), so it is not represented.
Orphans are drawn from the scope-filtered map and exclude skipped
extensions. -/
def previewTo (localFiles : List (String × FileInfo)) (objs : List S3Obj)
    (pre scopeS : String) (force : Bool) : PlanTo :=
  let s3F := previewS3FilesTo objs pre scopeS
  let newF := (localFiles.map Prod.fst).filter fun p => (List.lookup p s3F).isNone
  let changed := localFiles.filterMap fun x =>
    match List.lookup x.1 s3F with
    | some h => if force || x.2.hash != h then some x.1 else none
    | none => none
  let orphaned := s3F.filterMap fun x =>
    if (localFiles.map Prod.fst).contains x.1 then none
    else if toLowerS (extOf x.1) = ".psd" then none
    else some x.1
  ⟨newF, changed, orphaned⟩

/-- The scope-filtered `s3_files` preview map of the download direction
(`sync_from_s3.sync_single_path` lines 900-915): relative path with ETag and
size. -/
def previewS3FilesFrom (objs : List S3Obj) (pre scopeS : String) :
    List (String × String × Nat) :=
  objs.filterMap fun o =>
    if isMarker o then none
    else if scopeS != "" && !pyStarts o.key scopeS then none
    else some (stripPre pre o.key, o.etag, o.size)

/-- The download-direction plan sets. -/
structure PlanFrom where
  newFiles : List String
  changed : List String
  renames : List Cand
  orphaned : List String
  deriving DecidableEq, Repr

/-- The matched set of the download preview (lines 927-934), computed against
the scoped preview map. -/
def matchedFromPreview (localFiles : List (String × FileInfo))
    (s3F : List (String × String × Nat)) : List String :=
  localFiles.filterMap fun x =>
    match List.lookup x.1 s3F with
    | some e => if x.2.hash = e.1 then some x.1 else none
    | none => none

/-- The download-direction plan (lines 917-951): new/changed computed against
the scoped map (no `force` in `changed`, line 922); renames are detected on
the full object list then filtered so the new S3 key lies within scope
(lines 938-948); orphans are local files absent from S3 and not claimed as a
rename source (line 951). -/
def previewFrom (localFiles : List (String × FileInfo)) (objs : List S3Obj)
    (pre scopeS : String) : PlanFrom :=
  let s3F := previewS3FilesFrom objs pre scopeS
  let newF := (s3F.map Prod.fst).filter fun p => !(localFiles.map Prod.fst).contains p
  let changed := localFiles.filterMap fun x =>
    match List.lookup x.1 s3F with
    | some e => if x.2.hash != e.1 then some x.1 else none
    | none => none
  let matched := matchedFromPreview localFiles s3F
  let allRen := detectRenamesFrom localFiles objs pre (mkRat 7 10) matched
  let renames := allRen.filter fun r =>
    if scopeS != "" then pyStarts r.tgtKey scopeS else true
  let orphaned := localFiles.filterMap fun x =>
    if (List.lookup x.1 s3F).isSome then none
    else if renames.any fun r => r.src == x.1 then none
    else some x.1
  ⟨newF, changed, renames, orphaned⟩

/-! ## File-vs-directory heuristics -/

/-- The non-existent-path heuristic of `parse_project_path` (identical in
both scripts, lines 233-236 / 228-231):
`has_extension = '.' in basename and basename.split('.')[-1] not in ['', '/']`
and `is_likely_file = has_extension and '/' not in basename`.  The input is
the cleaned project path (leading separators stripped, slash-normalized). -/
def isLikelyFileParse (p : String) : Bool :=
  let b := basenameS p
  (hasChar '.' b && !(splitDotLast b == "" || splitDotLast b == "/")) && !hasChar '/' b

/-- The non-existent-path heuristic of `sync_single_path` (line 765 / 803):
`'.' in os.path.basename(clean) and '/' not in clean`. -/
def isFileSingle (p : String) : Bool :=
  hasChar '.' (basenameS p) && !hasChar '/' p

/-- The file-vs-directory decision of `parse_project_path` that shapes the
remote prefix: actual local type first (`isdir` then `isfile`), heuristic
only when the path does not exist (`true` = treat as file). -/
def parseTreatsAsFile (existsLocal isDirL isFileL : Bool) (p : String) : Bool :=
  if existsLocal && isDirL then false
  else if existsLocal && isFileL then true
  else isLikelyFileParse p

/-- The file-vs-directory decision of `sync_single_path` that selects the
sync scope: actual local type when the path exists, heuristic otherwise. -/
def singleTreatsAsFile (existsLocal isFileL : Bool) (p : String) : Bool :=
  if existsLocal then isFileL else isFileSingle p

/-- The spec's heuristic rule (§4.4), stated from its words: the last path
segment contains a dot AND the whole relative path contains no embedded
separator.  When no separator is present the whole path is its own last
segment, so the rule reads: the path contains a dot and no `/`. -/
def specFileRule (p : String) : Bool :=
  hasChar '.' p && !hasChar '/' p

/-- The rule `parse_project_path` actually implements, in plain terms: the
basename contains a dot with a non-empty part after the final dot; embedded
separators elsewhere in the path are ignored. -/
def parseFileRule (p : String) : Bool :=
  hasChar '.' (basenameS p) && splitDotLast (basenameS p) != ""

/-! ## Local scan filters (upload direction) -/

/-- `SKIP_EXTENSIONS` of sync_to_s3.py (lines 62-64). -/
def skipExtensions : List String := [".psd"]

/-- The `skip_files` name set of `scan_local_files`. -/
def skipFileNames : List String :=
  [".s3-sync-metadata.json", "generate-index.js", "README.md"]

/-- The per-file keep decision of the upload-direction `scan_local_files`:
drop files whose basename is in the skip set or whose lowercased extension is
skipped (applied both to a single-file root and to every file of a directory
walk). -/
def scanKeepTo (rel : String) : Bool :=
  let name := basenameS rel
  !skipFileNames.contains name && !skipExtensions.contains (toLowerS (extOf name))

/-- The upload-direction `scan_local_files` with the directory walk, archive
pruning and hashing abstracted into the `entries` input (relative path plus
record): it keeps exactly the entries passing the name/extension filter. -/
def scanLocalFilesTo (entries : List (String × FileInfo)) :
    List (String × FileInfo) :=
  entries.filter fun e => scanKeepTo e.1

/-- Membership of a key/value pair in a dict-of-lists: the key's group exists
and contains the value. -/
def pairMem {α : Type} (k : String) (v : α) (m : List (String × List α)) : Prop :=
  ∃ vs, List.lookup k m = some vs ∧ v ∈ vs

/-! ## Helper lemmas: dict-of-lists grouping -/

theorem lookup_addToGroup {α : Type} (k2 : String) (v2 : α) :
    ∀ (m : List (String × List α)) (k : String),
    List.lookup k (addToGroup k2 v2 m) =
      if k = k2 then some (((List.lookup k2 m).getD []) ++ [v2])
      else List.lookup k m := by
  intro m
  induction m with
  | nil =>
    intro k
    by_cases hk : k = k2
    · rw [if_pos hk, hk]
      simp [addToGroup, List.lookup]
    · have hbe : (k == k2) = false := beq_eq_false_iff_ne.mpr hk
      rw [if_neg hk]
      simp [addToGroup, List.lookup, hbe]
  | cons g rest ih =>
    intro k
    obtain ⟨k1, vs⟩ := g
    by_cases h12 : k1 = k2
    · subst h12
      simp only [addToGroup, if_pos rfl]
      by_cases hk : k = k1
      · rw [if_pos hk, hk]
        simp [List.lookup]
      · have hbe : (k == k1) = false := beq_eq_false_iff_ne.mpr hk
        rw [if_neg hk]
        simp [List.lookup, hbe]
    · simp only [addToGroup, if_neg h12]
      by_cases hk : k = k1
      · have hne2 : k ≠ k2 := by rw [hk]; exact h12
        have hbe : (k == k1) = true := beq_iff_eq.mpr hk
        rw [if_neg hne2]
        simp [List.lookup, hbe]
      · have hbe : (k == k1) = false := beq_eq_false_iff_ne.mpr hk
        have hbe2 : (k2 == k1) = false := beq_eq_false_iff_ne.mpr (fun h => h12 h.symm)
        simp only [List.lookup, hbe, hbe2]
        rw [ih k]

theorem pairMem_foldl {α : Type} :
    ∀ (xs : List (String × α)) (m : List (String × List α)) (k : String) (v : α),
    pairMem k v (xs.foldl (fun m kv => addToGroup kv.1 kv.2 m) m) ↔
      pairMem k v m ∨ (k, v) ∈ xs := by
  intro xs
  induction xs with
  | nil => intro m k v; simp
  | cons x xs ih =>
    intro m k v
    rw [List.foldl_cons, ih]
    have hstep : pairMem k v (addToGroup x.1 x.2 m) ↔ (k = x.1 ∧ v = x.2) ∨ pairMem k v m := by
      unfold pairMem
      rw [lookup_addToGroup]
      by_cases hk : k = x.1
      · rw [if_pos hk, hk]
        cases hl : List.lookup x.1 m with
        | none => simp [hl]
        | some ws => simp [hl, or_comm]
      · simp [if_neg hk, hk]
    rw [hstep]
    constructor
    · rintro (((⟨hk, hv⟩) | h) | h)
      · exact Or.inr (List.mem_cons.mpr (Or.inl (by rw [hk, hv])))
      · exact Or.inl h
      · exact Or.inr (List.mem_cons.mpr (Or.inr h))
    · rintro (h | h)
      · exact Or.inl (Or.inr h)
      · rcases List.mem_cons.mp h with h | h
        · exact Or.inl (Or.inl ⟨congrArg Prod.fst h, congrArg Prod.snd h⟩)
        · exact Or.inr h

theorem pairMem_groupPairs {α : Type} (xs : List (String × α)) (k : String) (v : α) :
    pairMem k v (groupPairs xs) ↔ (k, v) ∈ xs := by
  unfold groupPairs
  rw [pairMem_foldl]
  simp [pairMem]

theorem keys_addToGroup {α : Type} (k2 : String) (v2 : α) :
    ∀ (m : List (String × List α)),
    (addToGroup k2 v2 m).map Prod.fst =
      if k2 ∈ m.map Prod.fst then m.map Prod.fst
      else m.map Prod.fst ++ [k2] := by
  intro m
  induction m with
  | nil => simp [addToGroup]
  | cons g rest ih =>
    obtain ⟨k1, vs⟩ := g
    by_cases h12 : k1 = k2
    · subst h12
      simp [addToGroup]
    · have hne : ¬k2 = k1 := fun h => h12 h.symm
      by_cases hmem : k2 ∈ rest.map Prod.fst
      · simp [addToGroup, if_neg h12, hmem, hne, ih]
      · simp [addToGroup, if_neg h12, hmem, hne, ih]

theorem groupPairs_keys_nodup {α : Type} (xs : List (String × α)) :
    ((groupPairs xs).map Prod.fst).Nodup := by
  unfold groupPairs
  suffices h : ∀ (ys : List (String × α)) (m : List (String × List α)),
      (m.map Prod.fst).Nodup →
      ((ys.foldl (fun m kv => addToGroup kv.1 kv.2 m) m).map Prod.fst).Nodup by
    exact h xs [] (by simp)
  intro ys
  induction ys with
  | nil => intro m hm; simpa using hm
  | cons y ys ih =>
    intro m hm
    rw [List.foldl_cons]
    apply ih
    rw [keys_addToGroup]
    by_cases hmem : y.1 ∈ m.map Prod.fst
    · rw [if_pos hmem]; exact hm
    · rw [if_neg hmem]
      rw [(List.perm_append_singleton _ _).nodup_iff]
      exact List.nodup_cons.mpr ⟨hmem, hm⟩

theorem lookup_of_mem_keysNodup {α : Type} :
    ∀ (m : List (String × α)) (k : String) (v : α),
    (m.map Prod.fst).Nodup → (k, v) ∈ m → List.lookup k m = some v := by
  intro m
  induction m with
  | nil => intro k v _ h; simp at h
  | cons g rest ih =>
    intro k v hnd hm
    rcases List.mem_cons.mp hm with h | h
    · rw [← h]
      simp [List.lookup]
    · have hk : k ≠ g.1 := by
        intro he
        have : g.1 ∈ rest.map Prod.fst := by
          rw [← he]
          exact List.mem_map.mpr ⟨(k, v), h, rfl⟩
        simp only [List.map_cons, List.nodup_cons] at hnd
        exact hnd.1 this
      have hbe : (k == g.1) = false := beq_eq_false_iff_ne.mpr hk
      simp only [List.lookup, hbe]
      exact ih k v (by simp only [List.map_cons, List.nodup_cons] at hnd; exact hnd.2) h

theorem mem_group_pair {α : Type} (xs : List (String × α))
    (g : String × List α) (v : α) (hg : g ∈ groupPairs xs) (hv : v ∈ g.2) :
    (g.1, v) ∈ xs := by
  rw [← pairMem_groupPairs]
  exact ⟨g.2, lookup_of_mem_keysNodup _ _ _ (groupPairs_keys_nodup xs)
    (by rw [← Prod.mk.eta (p := g)] at hg; exact hg), hv⟩

/-! ## Concrete fixtures

Small concrete inputs used by the counterexample and witness theorems below;
the S3 prefix always matches the configured `S3_PREFIX = 'games/pull-tabs/'`. -/

/-- Local side of the rename scenario: one file `logo.png` with hash `h1`. -/
def exLogoLocal : List (String × FileInfo) := [("logo.png", ⟨"h1", 4, "/proj/logo.png"⟩)]

/-- Remote side of the rename scenario: `logo-old.png` with the same hash. -/
def exLogoObjs : List S3Obj := [⟨"games/pull-tabs/logo-old.png", "h1", 4⟩]

/-- Two local files with identical content and no remote namesake. -/
def exDupLocal : List (String × FileInfo) :=
  [("ab.txt", ⟨"h2", 1, "/proj/ab.txt"⟩), ("abc.txt", ⟨"h2", 1, "/proj/abc.txt"⟩)]

/-- One remote object carrying the duplicated content under a similar name. -/
def exDupObjs : List S3Obj := [⟨"games/pull-tabs/a.txt", "h2", 1⟩]

/-- A file present identically on both sides. -/
def exIdLocal : List (String × FileInfo) := [("a.txt", ⟨"h3", 1, "/proj/css/a.txt"⟩)]

/-- The matching remote object for `exIdLocal`. -/
def exIdObjs : List S3Obj := [⟨"games/pull-tabs/a.txt", "h3", 1⟩]

/-- A remote object with no local counterpart (an orphan candidate). -/
def exOrphanObjs : List S3Obj := [⟨"games/pull-tabs/css/old.txt", "h4", 1⟩]

/-- A local scan input holding one Photoshop file and one ordinary file. -/
def exPsdEntries : List (String × FileInfo) :=
  [("art/source.psd", ⟨"h5", 9, "/proj/assets/art/source.psd"⟩),
   ("art/logo.png", ⟨"h6", 2, "/proj/assets/art/logo.png"⟩)]

/-! ## Helper lemmas: strings and lookups -/

theorem contains_iff {a : String} {l : List String} : l.contains a = true ↔ a ∈ l :=
  List.elem_iff

theorem charList_contains_iff {c : Char} {l : List Char} : l.contains c = true ↔ c ∈ l :=
  List.elem_iff

theorem strData_inj {a b : String} (h : a.data = b.data) : a = b :=
  congrArg String.mk h

theorem strAppend_data (s t : String) : (s ++ t).data = s.data ++ t.data := rfl

theorem pyStarts_iff {s p : String} : pyStarts s p = true ↔ p.data <+: s.data := by
  unfold pyStarts
  exact List.isPrefixOf_iff_prefix

theorem pyStarts_refl (s : String) : pyStarts s s = true :=
  pyStarts_iff.mpr (List.prefix_refl _)

theorem pyStarts_append (p t : String) : pyStarts (p ++ t) p = true :=
  pyStarts_iff.mpr ⟨t.data, rfl⟩

theorem dropPre_append (p t : String) : dropPre p (p ++ t) = t := by
  unfold dropPre
  have h : ((p ++ t).data).drop p.data.length = t.data := by
    rw [strAppend_data]
    exact List.drop_left _ _
  rw [h]

theorem relpathN_join (base r : String) : relpathN (base ++ "/" ++ r) base = r := by
  unfold relpathN
  rw [if_pos (pyStarts_append (base ++ "/") r)]
  exact dropPre_append _ _

theorem strAppend_cancel {pre a b : String} (h : pre ++ a = pre ++ b) : a = b := by
  apply strData_inj
  have hd : pre.data ++ a.data = pre.data ++ b.data := by
    rw [← strAppend_data, ← strAppend_data, h]
  exact List.append_cancel_left hd

theorem lookup_mem {α : Type} :
    ∀ (m : List (String × α)) (k : String) (v : α),
    List.lookup k m = some v → (k, v) ∈ m := by
  intro m
  induction m with
  | nil => intro k v h; simp [List.lookup] at h
  | cons g rest ih =>
    intro k v h
    by_cases hk : k = g.1
    · have hbe : (k == g.1) = true := beq_iff_eq.mpr hk
      rw [← Prod.mk.eta (p := g)] at h
      simp only [List.lookup, hbe] at h
      injection h with h2
      rw [← Prod.mk.eta (p := g), hk, ← h2]
      exact List.mem_cons_self _ _
    · have hbe : (k == g.1) = false := beq_eq_false_iff_ne.mpr hk
      rw [← Prod.mk.eta (p := g)] at h
      simp only [List.lookup, hbe] at h
      exact List.mem_cons_of_mem _ (ih k v h)

theorem mem_map_fst {α : Type} {m : List (String × α)} {k : String} {v : α}
    (h : (k, v) ∈ m) : k ∈ m.map Prod.fst :=
  List.mem_map.mpr ⟨_, h, rfl⟩

theorem takeWhile_all {q : Char → Bool} :
    ∀ (l : List Char), (∀ a ∈ l, q a = true) → l.takeWhile q = l := by
  intro l
  induction l with
  | nil => intro _; rfl
  | cons a l ih =>
    intro h
    rw [List.takeWhile_cons]
    rw [h a (List.mem_cons_self _ _)]
    simp only [if_true]
    rw [ih fun b hb => h b (List.mem_cons_of_mem _ hb)]

theorem basenameS_noSlash (p : String) : hasChar '/' (basenameS p) = false := by
  apply Bool.eq_false_iff.mpr
  intro h
  have h2 : '/' ∈ (p.data.reverse.takeWhile (fun c => c ≠ '/')).reverse :=
    charList_contains_iff.mp h
  rw [List.mem_reverse] at h2
  have := List.mem_takeWhile_imp h2
  simp at this

theorem basenameS_of_noSlash (p : String) (h : hasChar '/' p = false) : basenameS p = p := by
  apply strData_inj
  show (p.data.reverse.takeWhile (fun c => c ≠ '/')).reverse = p.data
  have hall : ∀ c ∈ p.data.reverse, (fun c => decide (c ≠ '/')) c = true := by
    intro c hc
    rw [List.mem_reverse] at hc
    have hne : c ≠ '/' := by
      intro he
      rw [he] at hc
      have h2 : p.data.contains '/' = false := h
      have h3 : p.data.contains '/' = true := charList_contains_iff.mpr hc
      rw [h3] at h2
      cases h2
    simpa using hne
  rw [takeWhile_all _ hall, List.reverse_reverse]

theorem basenameS_idem (p : String) : basenameS (basenameS p) = basenameS p :=
  basenameS_of_noSlash _ (basenameS_noSlash p)

theorem extOf_basename (p : String) : extOf (basenameS p) = extOf p := by
  unfold extOf
  rw [basenameS_idem]

theorem splitDotLast_sub (b : String) : ∀ c ∈ (splitDotLast b).data, c ∈ b.data := by
  intro c hc
  unfold splitDotLast at hc
  rw [List.mem_reverse] at hc
  have h2 := (List.takeWhile_prefix _).subset hc
  exact List.mem_reverse.mp h2

theorem sortCands_sorted (l : List Cand) : List.Sorted candLe (sortCands l) :=
  List.sorted_insertionSort candLe l

theorem sortCands_mem (l : List Cand) (c : Cand) : c ∈ sortCands l ↔ c ∈ l :=
  (List.perm_insertionSort candLe l).mem_iff

/-- Structural facts about every upload-direction candidate: it passed the
threshold, its target is an unmatched local path, and its source is a
non-marker S3 object whose relative path has no local namesake. -/
theorem candidatesTo_shape (lf : List (String × FileInfo)) (objs : List S3Obj)
    (pre : String) (θ : ℚ) (matched : List String) :
    ∀ c ∈ candidatesTo lf objs pre θ matched,
    θ ≤ c.sim ∧
    (∃ x ∈ lf, c.tgt = x.1 ∧ matched.contains x.1 = false) ∧
    (∃ o ∈ objs, isMarker o = false ∧ c.src = o.key ∧ c.srcRel = stripPre pre o.key ∧
      (lf.map Prod.fst).contains (stripPre pre o.key) = false) := by
  intro c hc
  simp only [candidatesTo, List.mem_flatMap] at hc
  obtain ⟨g, hg, hc⟩ := hc
  cases hmatch : List.lookup g.1 (localHashMapTo lf matched) with
  | none => rw [hmatch] at hc; simp at hc
  | some les =>
    rw [hmatch] at hc
    simp only [List.mem_flatMap] at hc
    obtain ⟨se, hse, hc⟩ := hc
    simp only [List.mem_filterMap] at hc
    obtain ⟨le, hle, heq⟩ := hc
    have hle2 : (g.1, le) ∈
        (lf.filter fun x => !matched.contains x.1).map
          fun x => (x.2.hash, (x.1, basenameS x.1)) := by
      have := pairMem_groupPairs
        ((lf.filter fun x => !matched.contains x.1).map
          fun x => (x.2.hash, (x.1, basenameS x.1))) g.1 le
      exact this.mp ⟨les, hmatch, hle⟩
    have hse2 : (g.1, se) ∈ s3HashEntriesTo lf matched objs pre :=
      mem_group_pair _ g se hg hse
    split at heq
    case isTrue hcond =>
      obtain rfl : (⟨se.1, le.1, similarity se.2.2 le.2, se.2.1, ""⟩ : Cand) = c := by
        injection heq
      refine ⟨hcond, ?_, ?_⟩
      · simp only [List.mem_map, List.mem_filter] at hle2
        obtain ⟨x, ⟨hx, hxm⟩, hxe⟩ := hle2
        refine ⟨x, hx, ?_, by simpa using hxm⟩
        have : le.1 = x.1 := by
          have := congrArg (fun y => y.2.1) hxe
          simpa using this.symm
        simpa using this
      · simp only [s3HashEntriesTo, List.mem_filterMap] at hse2
        obtain ⟨o, ho, hoe⟩ := hse2
        by_cases hmk : isMarker o
        · rw [if_pos hmk] at hoe; cases hoe
        · rw [if_neg hmk] at hoe
          by_cases hloc : (lf.map Prod.fst).contains (stripPre pre o.key)
          · rw [if_pos hloc] at hoe; cases hoe
          · rw [if_neg hloc] at hoe
            by_cases hetag : o.etag == ""
            · rw [if_pos hetag] at hoe; cases hoe
            · rw [if_neg hetag] at hoe
              have hose : se = (o.key, stripPre pre o.key, basenameS (stripPre pre o.key)) := by
                cases hlook : List.lookup o.etag (allLocalByHash lf) with
                | none =>
                  rw [hlook] at hoe
                  injection hoe with h3
                  exact (congrArg Prod.snd h3).symm
                | some paths =>
                  rw [hlook] at hoe
                  have hoe2 : (if (paths.any fun p => matched.contains p) = true then none
                      else some (o.etag,
                        (o.key, stripPre pre o.key, basenameS (stripPre pre o.key)))) =
                      some (g.1, se) := hoe
                  by_cases hany : (paths.any fun p => matched.contains p) = true
                  · rw [if_pos hany] at hoe2; cases hoe2
                  · rw [if_neg hany] at hoe2
                    injection hoe2 with h3
                    exact (congrArg Prod.snd h3).symm
              refine ⟨o, ho, by simpa using hmk, ?_, ?_, by simpa using hloc⟩
              · simp [hose]
              · simp [hose]
    case isFalse => cases heq

/-- Structural facts about every download-direction candidate: it passed the
threshold, its source is a local path that is neither matched nor present in
S3 under the same name, its target comes from a non-marker S3 object, and its
target's relative path has no hash in common with any matched path (the
false-rename guard). -/
theorem candidatesFrom_shape (lf : List (String × FileInfo)) (objs : List S3Obj)
    (pre : String) (θ : ℚ) (matched : List String) :
    ∀ c ∈ candidatesFrom lf objs pre θ matched,
    θ ≤ c.sim ∧
    (∃ x ∈ lf, c.src = x.1 ∧ matched.contains x.1 = false ∧
      (s3PathsFrom objs pre).contains x.1 = false) ∧
    (∃ o ∈ objs, isMarker o = false ∧ c.tgtKey = o.key ∧ c.tgt = stripPre pre o.key) ∧
    matched.contains c.tgt = false := by
  intro c hc
  simp only [candidatesFrom, List.mem_flatMap] at hc
  obtain ⟨g, hg, hc⟩ := hc
  cases hmatch : List.lookup g.1 (s3HashMapFrom objs pre) with
  | none => rw [hmatch] at hc; simp at hc
  | some ses =>
    rw [hmatch] at hc
    simp only [List.mem_flatMap] at hc
    obtain ⟨le, hle, hc⟩ := hc
    split at hc
    case isTrue => simp at hc
    case isFalse hguard =>
      simp only [List.mem_filterMap] at hc
      obtain ⟨se, hse, heq⟩ := hc
      have hle2 : (g.1, le) ∈
          (lf.filter fun x =>
            !matched.contains x.1 && !(s3PathsFrom objs pre).contains x.1).map
            fun x => (x.2.hash, (x.1, basenameS x.1)) :=
        mem_group_pair _ g le hg hle
      have hse2 : pairMem g.1 se (s3HashMapFrom objs pre) := ⟨ses, hmatch, hse⟩
      rw [s3HashMapFrom, pairMem_groupPairs] at hse2
      simp only [List.mem_filterMap] at hse2
      obtain ⟨o, ho, hoe⟩ := hse2
      by_cases hmk : isMarker o
      · rw [if_pos hmk] at hoe; cases hoe
      · rw [if_neg hmk] at hoe
        by_cases hetag : o.etag == ""
        · rw [if_pos hetag] at hoe; cases hoe
        · rw [if_neg hetag] at hoe
          have h3 : (o.etag, o.key, stripPre pre o.key, basenameS (stripPre pre o.key)) =
              (g.1, se) := by injection hoe
          have hg1 : g.1 = o.etag := (congrArg Prod.fst h3).symm
          have hose : se = (o.key, stripPre pre o.key, basenameS (stripPre pre o.key)) :=
            (congrArg Prod.snd h3).symm
          split at heq
          next hcond =>
            obtain rfl : (⟨le.1, se.2.1, similarity le.2 se.2.2, "", se.1⟩ : Cand) = c := by
              injection heq
            refine ⟨hcond, ?_, ?_, ?_⟩
            · simp only [List.mem_map, List.mem_filter, Bool.and_eq_true] at hle2
              obtain ⟨x, ⟨hx, hxm⟩, hxe⟩ := hle2
              have : le.1 = x.1 := by
                have := congrArg (fun y => y.2.1) hxe
                simpa using this.symm
              refine ⟨x, hx, by simpa using this, ?_, ?_⟩
              · simpa using hxm.1
              · simpa using hxm.2
            · exact ⟨o, ho, by simpa using hmk, by simp [hose], by simp [hose]⟩
            · by_cases hcont : matched.contains se.2.1
              · exfalso
                apply hguard
                have hpm : pairMem g.1 (stripPre pre o.key) (allS3ByHash objs pre) := by
                  rw [allS3ByHash, pairMem_groupPairs]
                  simp only [List.mem_filterMap]
                  refine ⟨o, ho, ?_⟩
                  rw [if_neg hmk, if_neg hetag, hg1]
                obtain ⟨vs, hvs, hvmem⟩ := hpm
                rw [hvs]
                rw [List.any_eq_true]
                refine ⟨stripPre pre o.key, hvmem, ?_⟩
                have : se.2.1 = stripPre pre o.key := by simp [hose]
                rw [← this]
                exact hcont
              · simpa [hose] using (by simpa using hcont : matched.contains se.2.1 = false)
          next => cases heq

/-! ## Helper lemmas: the greedy assignment loops -/

theorem greedy2_mem_acc : ∀ (l acc : List Cand) (d : Cand), d ∈ acc → d ∈ greedy2 acc l := by
  intro l
  induction l with
  | nil => intro acc d hd; simpa [greedy2] using hd
  | cons c cs ih =>
    intro acc d hd
    by_cases hc : ((acc.all fun d => d.src != c.src) && (acc.all fun d => d.tgt != c.tgt)) = true
    · simp only [greedy2, hc, if_true]
      exact ih (acc ++ [c]) d (List.mem_append_left _ hd)
    · simp only [greedy2, hc, if_false]
      exact ih acc d hd

theorem greedy2_mem : ∀ (l acc : List Cand) (c : Cand), c ∈ greedy2 acc l → c ∈ acc ∨ c ∈ l := by
  intro l
  induction l with
  | nil => intro acc c hc; simp [greedy2] at hc; exact Or.inl hc
  | cons c0 cs ih =>
    intro acc c hc
    by_cases hcnd : ((acc.all fun d => d.src != c0.src) && (acc.all fun d => d.tgt != c0.tgt)) = true
    · simp only [greedy2, hcnd, if_true] at hc
      rcases ih (acc ++ [c0]) c hc with h | h
      · rcases List.mem_append.mp h with h | h
        · exact Or.inl h
        · exact Or.inr (by simp at h; simp [h])
      · exact Or.inr (List.mem_cons_of_mem _ h)
    · simp only [greedy2, hcnd, if_false] at hc
      rcases ih acc c hc with h | h
      · exact Or.inl h
      · exact Or.inr (List.mem_cons_of_mem _ h)

theorem greedy2_src_claimed : ∀ (l acc : List Cand) (s : String),
    (∃ d ∈ acc, d.src = s) → ∀ c ∈ greedy2 acc l, c.src = s → c ∈ acc := by
  intro l
  induction l with
  | nil => intro acc s _ c hc _; simpa [greedy2] using hc
  | cons c0 cs ih =>
    intro acc s hs c hc hcs
    by_cases hcnd : ((acc.all fun d => d.src != c0.src) && (acc.all fun d => d.tgt != c0.tgt)) = true
    · simp only [greedy2, hcnd, if_true] at hc
      have hs2 : ∃ d ∈ acc ++ [c0], d.src = s := by
        obtain ⟨d, hd, hds⟩ := hs
        exact ⟨d, List.mem_append_left _ hd, hds⟩
      have := ih (acc ++ [c0]) s hs2 c hc hcs
      rcases List.mem_append.mp this with h | h
      · exact h
      · exfalso
        simp only [Bool.and_eq_true, List.all_eq_true, bne_iff_ne] at hcnd
        obtain ⟨d, hd, hds⟩ := hs
        have hne := hcnd.1 d hd
        simp at h
        rw [h] at hcs
        exact hne (hds.trans hcs.symm)
    · simp only [greedy2, hcnd, if_false] at hc
      exact ih acc s hs c hc hcs

theorem greedy2_tgt_claimed : ∀ (l acc : List Cand) (t : String),
    (∃ d ∈ acc, d.tgt = t) → ∀ c ∈ greedy2 acc l, c.tgt = t → c ∈ acc := by
  intro l
  induction l with
  | nil => intro acc t _ c hc _; simpa [greedy2] using hc
  | cons c0 cs ih =>
    intro acc t hs c hc hcs
    by_cases hcnd : ((acc.all fun d => d.src != c0.src) && (acc.all fun d => d.tgt != c0.tgt)) = true
    · simp only [greedy2, hcnd, if_true] at hc
      have hs2 : ∃ d ∈ acc ++ [c0], d.tgt = t := by
        obtain ⟨d, hd, hds⟩ := hs
        exact ⟨d, List.mem_append_left _ hd, hds⟩
      have := ih (acc ++ [c0]) t hs2 c hc hcs
      rcases List.mem_append.mp this with h | h
      · exact h
      · exfalso
        simp only [Bool.and_eq_true, List.all_eq_true, bne_iff_ne] at hcnd
        obtain ⟨d, hd, hds⟩ := hs
        have hne := hcnd.2 d hd
        simp at h
        rw [h] at hcs
        exact hne (hds.trans hcs.symm)
    · simp only [greedy2, hcnd, if_false] at hc
      exact ih acc t hs c hc hcs

theorem greedy1_mem_acc : ∀ (l acc : List Cand) (d : Cand), d ∈ acc → d ∈ greedy1 acc l := by
  intro l
  induction l with
  | nil => intro acc d hd; simpa [greedy1] using hd
  | cons c cs ih =>
    intro acc d hd
    by_cases hc : (acc.all fun d => d.src != c.src) = true
    · simp only [greedy1, hc, if_true]
      exact ih (acc ++ [c]) d (List.mem_append_left _ hd)
    · simp only [greedy1, hc, if_false]
      exact ih acc d hd

theorem greedy1_mem : ∀ (l acc : List Cand) (c : Cand), c ∈ greedy1 acc l → c ∈ acc ∨ c ∈ l := by
  intro l
  induction l with
  | nil => intro acc c hc; simp [greedy1] at hc; exact Or.inl hc
  | cons c0 cs ih =>
    intro acc c hc
    by_cases hcnd : (acc.all fun d => d.src != c0.src) = true
    · simp only [greedy1, hcnd, if_true] at hc
      rcases ih (acc ++ [c0]) c hc with h | h
      · rcases List.mem_append.mp h with h | h
        · exact Or.inl h
        · exact Or.inr (by simp at h; simp [h])
      · exact Or.inr (List.mem_cons_of_mem _ h)
    · simp only [greedy1, hcnd, if_false] at hc
      rcases ih acc c hc with h | h
      · exact Or.inl h
      · exact Or.inr (List.mem_cons_of_mem _ h)

theorem greedy1_src_claimed : ∀ (l acc : List Cand) (s : String),
    (∃ d ∈ acc, d.src = s) → ∀ c ∈ greedy1 acc l, c.src = s → c ∈ acc := by
  intro l
  induction l with
  | nil => intro acc s _ c hc _; simpa [greedy1] using hc
  | cons c0 cs ih =>
    intro acc s hs c hc hcs
    by_cases hcnd : (acc.all fun d => d.src != c0.src) = true
    · simp only [greedy1, hcnd, if_true] at hc
      have hs2 : ∃ d ∈ acc ++ [c0], d.src = s := by
        obtain ⟨d, hd, hds⟩ := hs
        exact ⟨d, List.mem_append_left _ hd, hds⟩
      have := ih (acc ++ [c0]) s hs2 c hc hcs
      rcases List.mem_append.mp this with h | h
      · exact h
      · exfalso
        simp only [List.all_eq_true, bne_iff_ne] at hcnd
        obtain ⟨d, hd, hds⟩ := hs
        have hne := hcnd d hd
        simp at h
        rw [h] at hcs
        exact hne (hds.trans hcs.symm)
    · simp only [greedy1, hcnd, if_false] at hc
      exact ih acc s hs c hc hcs

theorem greedy2_src_nodup : ∀ (l acc : List Cand),
    (acc.map Cand.src).Nodup → ((greedy2 acc l).map Cand.src).Nodup := by
  intro l
  induction l with
  | nil => intro acc h; simpa [greedy2] using h
  | cons c0 cs ih =>
    intro acc h
    by_cases hcnd : ((acc.all fun d => d.src != c0.src) && (acc.all fun d => d.tgt != c0.tgt)) = true
    · simp only [greedy2, hcnd, if_true]
      apply ih
      simp only [List.map_append, List.map_cons, List.map_nil]
      rw [(List.perm_append_singleton _ _).nodup_iff]
      refine List.nodup_cons.mpr ⟨?_, h⟩
      simp only [Bool.and_eq_true, List.all_eq_true, bne_iff_ne] at hcnd
      intro hmem
      obtain ⟨d, hd, hds⟩ := List.mem_map.mp hmem
      exact hcnd.1 d hd hds
    · simp only [greedy2, hcnd, if_false]
      exact ih acc h

theorem greedy2_tgt_nodup : ∀ (l acc : List Cand),
    (acc.map Cand.tgt).Nodup → ((greedy2 acc l).map Cand.tgt).Nodup := by
  intro l
  induction l with
  | nil => intro acc h; simpa [greedy2] using h
  | cons c0 cs ih =>
    intro acc h
    by_cases hcnd : ((acc.all fun d => d.src != c0.src) && (acc.all fun d => d.tgt != c0.tgt)) = true
    · simp only [greedy2, hcnd, if_true]
      apply ih
      simp only [List.map_append, List.map_cons, List.map_nil]
      rw [(List.perm_append_singleton _ _).nodup_iff]
      refine List.nodup_cons.mpr ⟨?_, h⟩
      simp only [Bool.and_eq_true, List.all_eq_true, bne_iff_ne] at hcnd
      intro hmem
      obtain ⟨d, hd, hds⟩ := List.mem_map.mp hmem
      exact hcnd.2 d hd hds
    · simp only [greedy2, hcnd, if_false]
      exact ih acc h

theorem greedy1_src_nodup : ∀ (l acc : List Cand),
    (acc.map Cand.src).Nodup → ((greedy1 acc l).map Cand.src).Nodup := by
  intro l
  induction l with
  | nil => intro acc h; simpa [greedy1] using h
  | cons c0 cs ih =>
    intro acc h
    by_cases hcnd : (acc.all fun d => d.src != c0.src) = true
    · simp only [greedy1, hcnd, if_true]
      apply ih
      simp only [List.map_append, List.map_cons, List.map_nil]
      rw [(List.perm_append_singleton _ _).nodup_iff]
      refine List.nodup_cons.mpr ⟨?_, h⟩
      simp only [List.all_eq_true, bne_iff_ne] at hcnd
      intro hmem
      obtain ⟨d, hd, hds⟩ := List.mem_map.mp hmem
      exact hcnd d hd hds
    · simp only [greedy1, hcnd, if_false]
      exact ih acc h

theorem greedy2_stable_src : ∀ (l acc : List Cand), List.Sorted candLe l →
    ∀ c ∈ greedy2 acc l, c ∉ acc → ∀ c1 ∈ l, c.sim < c1.sim → c1.src = c.src →
    ∃ d ∈ greedy2 acc l, d.tgt = c1.tgt := by
  intro l
  induction l with
  | nil =>
    intro acc _ c hc hnacc
    exact absurd (by simpa [greedy2] using hc) hnacc
  | cons c0 cs ih =>
    intro acc hsort c hc hnacc c1 hc1 hsim hsrc
    have hhead := (List.sorted_cons.mp hsort).1
    have hsort2 := (List.sorted_cons.mp hsort).2
    by_cases hcnd : ((acc.all fun d => d.src != c0.src) && (acc.all fun d => d.tgt != c0.tgt)) = true
    · simp only [greedy2, hcnd, if_true] at hc ⊢
      rcases List.mem_cons.mp hc1 with h1 | h1
      · exact ⟨c0, greedy2_mem_acc cs (acc ++ [c0]) c0 (by simp), by rw [h1]⟩
      · have hne : c ≠ c0 := by
          intro he
          have hle : c1.sim ≤ c0.sim := hhead c1 h1
          rw [he] at hsim
          exact absurd hsim (not_lt.mpr hle)
        have hnacc2 : c ∉ acc ++ [c0] := by
          simp only [List.mem_append, List.mem_singleton]
          rintro (h | h)
          · exact hnacc h
          · exact hne h
        exact ih (acc ++ [c0]) hsort2 c hc hnacc2 c1 h1 hsim hsrc
    · simp only [greedy2, hcnd, if_false] at hc ⊢
      rcases List.mem_cons.mp hc1 with h1 | h1
      · simp only [Bool.and_eq_true, List.all_eq_true, bne_iff_ne, not_and_or] at hcnd
        rcases hcnd with h | h
        · push_neg at h
          obtain ⟨d, hd, hds⟩ := h
          exfalso
          have hds2 : d.src = c.src := by rw [hds, ← h1, hsrc]
          exact hnacc (greedy2_src_claimed cs acc c.src ⟨d, hd, hds2⟩ c hc rfl)
        · push_neg at h
          obtain ⟨d, hd, hds⟩ := h
          exact ⟨d, greedy2_mem_acc cs acc d hd, by rw [hds, h1]⟩
      · exact ih acc hsort2 c hc hnacc c1 h1 hsim hsrc

theorem greedy2_stable_tgt : ∀ (l acc : List Cand), List.Sorted candLe l →
    ∀ c ∈ greedy2 acc l, c ∉ acc → ∀ c1 ∈ l, c.sim < c1.sim → c1.tgt = c.tgt →
    ∃ d ∈ greedy2 acc l, d.src = c1.src := by
  intro l
  induction l with
  | nil =>
    intro acc _ c hc hnacc
    exact absurd (by simpa [greedy2] using hc) hnacc
  | cons c0 cs ih =>
    intro acc hsort c hc hnacc c1 hc1 hsim htgt
    have hhead := (List.sorted_cons.mp hsort).1
    have hsort2 := (List.sorted_cons.mp hsort).2
    by_cases hcnd : ((acc.all fun d => d.src != c0.src) && (acc.all fun d => d.tgt != c0.tgt)) = true
    · simp only [greedy2, hcnd, if_true] at hc ⊢
      rcases List.mem_cons.mp hc1 with h1 | h1
      · exact ⟨c0, greedy2_mem_acc cs (acc ++ [c0]) c0 (by simp), by rw [h1]⟩
      · have hne : c ≠ c0 := by
          intro he
          have hle : c1.sim ≤ c0.sim := hhead c1 h1
          rw [he] at hsim
          exact absurd hsim (not_lt.mpr hle)
        have hnacc2 : c ∉ acc ++ [c0] := by
          simp only [List.mem_append, List.mem_singleton]
          rintro (h | h)
          · exact hnacc h
          · exact hne h
        exact ih (acc ++ [c0]) hsort2 c hc hnacc2 c1 h1 hsim htgt
    · simp only [greedy2, hcnd, if_false] at hc ⊢
      rcases List.mem_cons.mp hc1 with h1 | h1
      · simp only [Bool.and_eq_true, List.all_eq_true, bne_iff_ne, not_and_or] at hcnd
        rcases hcnd with h | h
        · push_neg at h
          obtain ⟨d, hd, hds⟩ := h
          exact ⟨d, greedy2_mem_acc cs acc d hd, by rw [hds, h1]⟩
        · push_neg at h
          obtain ⟨d, hd, hds⟩ := h
          exfalso
          have hds2 : d.tgt = c.tgt := by rw [hds, ← h1, htgt]
          exact hnacc (greedy2_tgt_claimed cs acc c.tgt ⟨d, hd, hds2⟩ c hc rfl)
      · exact ih acc hsort2 c hc hnacc c1 h1 hsim htgt

theorem greedy1_stable_src : ∀ (l acc : List Cand), List.Sorted candLe l →
    ∀ c ∈ greedy1 acc l, c ∉ acc → ∀ c1 ∈ l, c.sim < c1.sim → c1.src = c.src → False := by
  intro l
  induction l with
  | nil =>
    intro acc _ c hc hnacc
    exact absurd (by simpa [greedy1] using hc) hnacc
  | cons c0 cs ih =>
    intro acc hsort c hc hnacc c1 hc1 hsim hsrc
    have hhead := (List.sorted_cons.mp hsort).1
    have hsort2 := (List.sorted_cons.mp hsort).2
    by_cases hcnd : (acc.all fun d => d.src != c0.src) = true
    · simp only [greedy1, hcnd, if_true] at hc
      rcases List.mem_cons.mp hc1 with h1 | h1
      · have hclaim : ∃ d ∈ acc ++ [c0], d.src = c.src :=
          ⟨c0, by simp, by rw [← hsrc, h1]⟩
        have hmem := greedy1_src_claimed cs (acc ++ [c0]) c.src hclaim c hc rfl
        rcases List.mem_append.mp hmem with h | h
        · exact hnacc h
        · simp only [List.mem_singleton] at h
          rw [h, ← h1] at hsim
          exact absurd hsim (lt_irrefl _)
      · have hne : c ≠ c0 := by
          intro he
          have hle : c1.sim ≤ c0.sim := hhead c1 h1
          rw [he] at hsim
          exact absurd hsim (not_lt.mpr hle)
        have hnacc2 : c ∉ acc ++ [c0] := by
          simp only [List.mem_append, List.mem_singleton]
          rintro (h | h)
          · exact hnacc h
          · exact hne h
        exact ih (acc ++ [c0]) hsort2 c hc hnacc2 c1 h1 hsim hsrc
    · simp only [greedy1, hcnd, if_false] at hc
      rcases List.mem_cons.mp hc1 with h1 | h1
      · simp only [List.all_eq_true, bne_iff_ne] at hcnd
        push_neg at hcnd
        obtain ⟨d, hd, hds⟩ := hcnd
        have hds2 : d.src = c.src := by rw [hds, ← h1, hsrc]
        exact hnacc (greedy1_src_claimed cs acc c.src ⟨d, hd, hds2⟩ c hc rfl)
      · exact ih acc hsort2 c hc hnacc c1 h1 hsim hsrc

theorem greedy1_stable_tgt : ∀ (l acc : List Cand), List.Sorted candLe l →
    ∀ c ∈ greedy1 acc l, c ∉ acc → ∀ c1 ∈ l, c.sim < c1.sim → c1.tgt = c.tgt →
    ∃ d ∈ greedy1 acc l, d.src = c1.src := by
  intro l
  induction l with
  | nil =>
    intro acc _ c hc hnacc
    exact absurd (by simpa [greedy1] using hc) hnacc
  | cons c0 cs ih =>
    intro acc hsort c hc hnacc c1 hc1 hsim htgt
    have hhead := (List.sorted_cons.mp hsort).1
    have hsort2 := (List.sorted_cons.mp hsort).2
    by_cases hcnd : (acc.all fun d => d.src != c0.src) = true
    · simp only [greedy1, hcnd, if_true] at hc ⊢
      rcases List.mem_cons.mp hc1 with h1 | h1
      · exact ⟨c0, greedy1_mem_acc cs (acc ++ [c0]) c0 (by simp), by rw [h1]⟩
      · have hne : c ≠ c0 := by
          intro he
          have hle : c1.sim ≤ c0.sim := hhead c1 h1
          rw [he] at hsim
          exact absurd hsim (not_lt.mpr hle)
        have hnacc2 : c ∉ acc ++ [c0] := by
          simp only [List.mem_append, List.mem_singleton]
          rintro (h | h)
          · exact hnacc h
          · exact hne h
        exact ih (acc ++ [c0]) hsort2 c hc hnacc2 c1 h1 hsim htgt
    · simp only [greedy1, hcnd, if_false] at hc ⊢
      rcases List.mem_cons.mp hc1 with h1 | h1
      · simp only [List.all_eq_true, bne_iff_ne] at hcnd
        push_neg at hcnd
        obtain ⟨d, hd, hds⟩ := hcnd
        exact ⟨d, greedy1_mem_acc cs acc d hd, by rw [hds, h1]⟩
      · exact ih acc hsort2 c hc hnacc c1 h1 hsim htgt

/-! ## Helper lemmas: the detectors -/

theorem detectRenamesTo_sub (lf : List (String × FileInfo)) (objs : List S3Obj)
    (pre : String) (θ : ℚ) (matched : List String) :
    ∀ c ∈ detectRenamesTo lf objs pre θ matched, c ∈ candidatesTo lf objs pre θ matched := by
  intro c hc
  rcases greedy2_mem (sortCands (candidatesTo lf objs pre θ matched)) [] c hc with h | h
  · simp at h
  · exact (sortCands_mem _ c).mp h

theorem detectRenamesFrom_sub (lf : List (String × FileInfo)) (objs : List S3Obj)
    (pre : String) (θ : ℚ) (matched : List String) :
    ∀ c ∈ detectRenamesFrom lf objs pre θ matched, c ∈ candidatesFrom lf objs pre θ matched := by
  intro c hc
  rcases greedy1_mem (sortCands (candidatesFrom lf objs pre θ matched)) [] c hc with h | h
  · simp at h
  · exact (sortCands_mem _ c).mp h

/-! ## Helper lemmas: executor provenance -/

theorem localActionTo_key (force : Bool) (s3F : List (String × S3Obj)) (matched : List String)
    (pre rel : String) (info : FileInfo) (a : Tag × String)
    (h : localActionTo force s3F matched pre rel info = some a) : a.2 = mkKey pre rel := by
  unfold localActionTo at h
  split at h
  · cases h
  · split at h
    · split at h
      · injection h with h2
        rw [← h2]
      · cases h
    · injection h with h2
      rw [← h2]

theorem syncToS3Run_upload_mem (lf : List (String × FileInfo)) (objs : List S3Obj)
    (pre : String) (force dryRun : Bool) (scope : Option String) (k : String)
    (h : Event.uploadE k ∈ (syncToS3Run lf objs pre force dryRun scope).2) :
    ∃ x ∈ lf, k = mkKey pre x.1 := by
  simp only [syncToS3Run, List.mem_append] at h
  rcases h with (h | h) | h
  · by_cases hd : dryRun = true
    · rw [if_pos hd] at h
      simp at h
    · rw [if_neg hd] at h
      simp only [List.mem_map] at h
      obtain ⟨a, ha, he⟩ := h
      simp only [List.mem_filterMap] at ha
      obtain ⟨x, hx, hax⟩ := ha
      refine ⟨x, hx, ?_⟩
      have hkey := localActionTo_key force _ _ pre x.1 x.2 a hax
      injection he with he2
      rw [← he2, hkey]
  · by_cases hd : dryRun = true
    · rw [if_pos hd] at h
      simp at h
    · rw [if_neg hd] at h
      simp only [List.mem_map] at h
      obtain ⟨o, _, he⟩ := h
      cases he
  · by_cases hd : dryRun = true
    · rw [if_pos hd] at h
      simp at h
    · rw [if_neg hd] at h
      simp only [List.mem_map] at h
      obtain ⟨o, _, he⟩ := h
      cases he

theorem markersOf_ends (objs : List S3Obj) (scope : Option String) :
    ∀ k ∈ markersOf objs scope, pyEnds k "/" = true := by
  intro k hk
  obtain ⟨o, ho, hoe⟩ := List.mem_filterMap.mp hk
  by_cases hmk : isMarker o = true
  · have hends : pyEnds o.key "/" = true := by
      have h4 : (pyEnds o.key "/" && o.size == 0) = true := hmk
      simp only [Bool.and_eq_true] at h4
      exact h4.1
    cases scope with
    | none =>
      have h3 : (if isMarker o = true then some o.key else none) = some k := hoe
      rw [if_pos hmk] at h3
      injection h3 with h2
      rw [← h2]
      exact hends
    | some sp =>
      have h3 : (if isMarker o = true then
          (if pyStarts o.key sp = true then some o.key else none) else none) = some k := hoe
      rw [if_pos hmk] at h3
      by_cases hst : pyStarts o.key sp = true
      · rw [if_pos hst] at h3
        injection h3 with h2
        rw [← h2]
        exact hends
      · rw [if_neg hst] at h3
        cases h3
  · cases scope with
    | none =>
      have h3 : (if isMarker o = true then some o.key else none) = some k := hoe
      rw [if_neg hmk] at h3
      cases h3
    | some sp =>
      have h3 : (if isMarker o = true then
          (if pyStarts o.key sp = true then some o.key else none) else none) = some k := hoe
      rw [if_neg hmk] at h3
      cases h3

theorem markersOf_scope (objs : List S3Obj) (sp : String) :
    ∀ k ∈ markersOf objs (some sp), pyStarts k sp = true := by
  intro k hk
  obtain ⟨o, ho, hoe⟩ := List.mem_filterMap.mp hk
  have h3 : (if isMarker o = true then
      (if pyStarts o.key sp = true then some o.key else none) else none) = some k := hoe
  by_cases hmk : isMarker o = true
  · rw [if_pos hmk] at h3
    by_cases hst : pyStarts o.key sp = true
    · rw [if_pos hst] at h3
      injection h3 with h2
      rw [← h2]
      exact hst
    · rw [if_neg hst] at h3
      cases h3
  · rw [if_neg hmk] at h3
    cases h3

theorem syncToS3Run_delete_mem (lf : List (String × FileInfo)) (objs : List S3Obj)
    (pre : String) (force dryRun : Bool) (scope : Option String) (k : String)
    (h : Event.deleteS3 k ∈ (syncToS3Run lf objs pre force dryRun scope).2) :
    (∃ x ∈ orphanedKeysTo lf (s3FilesOf objs pre) scope, k = x.1) ∨ pyEnds k "/" = true := by
  simp only [syncToS3Run, List.mem_append] at h
  rcases h with (h | h) | h
  · by_cases hd : dryRun = true
    · rw [if_pos hd] at h
      simp at h
    · rw [if_neg hd] at h
      simp only [List.mem_map] at h
      obtain ⟨a, _, he⟩ := h
      cases he
  · by_cases hd : dryRun = true
    · rw [if_pos hd] at h
      simp at h
    · rw [if_neg hd] at h
      simp only [List.mem_map] at h
      obtain ⟨x, hx, he⟩ := h
      injection he with he2
      exact Or.inl ⟨x, hx, he2.symm⟩
  · by_cases hd : dryRun = true
    · rw [if_pos hd] at h
      simp at h
    · rw [if_neg hd] at h
      simp only [List.mem_map] at h
      obtain ⟨m, hm, he⟩ := h
      injection he with he2
      refine Or.inr ?_
      rw [← he2]
      split at hm
      · exact markersOf_ends objs scope m hm
      · simp at hm

theorem orphanedKeysTo_scope (lf : List (String × FileInfo))
    (s3F : List (String × S3Obj)) (sp : String) :
    ∀ x ∈ orphanedKeysTo lf s3F (some sp), pyStarts x.1 sp = true := by
  intro x hx
  obtain ⟨y, hy, hye⟩ := List.mem_filterMap.mp hx
  have h3 : (if toLowerS (extOf y.1) = ".psd" then none
      else if (lf.map Prod.fst).contains y.1 = true then none
      else if pyStarts y.2.key sp = true then some (y.2.key, y.1, y.2.size) else none) =
      some x := hye
  by_cases h1 : toLowerS (extOf y.1) = ".psd"
  · rw [if_pos h1] at h3
    cases h3
  · rw [if_neg h1] at h3
    by_cases h2 : (lf.map Prod.fst).contains y.1 = true
    · rw [if_pos h2] at h3
      cases h3
    · rw [if_neg h2] at h3
      by_cases hst : pyStarts y.2.key sp = true
      · rw [if_pos hst] at h3
        injection h3 with h4
        rw [← h4]
        exact hst
      · rw [if_neg hst] at h3
        cases h3

theorem orphanedKeysTo_ext (lf : List (String × FileInfo))
    (s3F : List (String × S3Obj)) (scope : Option String) :
    ∀ x ∈ orphanedKeysTo lf s3F scope, toLowerS (extOf x.2.1) ≠ ".psd" := by
  intro x hx
  obtain ⟨y, hy, hye⟩ := List.mem_filterMap.mp hx
  by_cases h1 : toLowerS (extOf y.1) = ".psd"
  all_goals cases scope with
  | none =>
    have h3 : (if toLowerS (extOf y.1) = ".psd" then none
        else if (lf.map Prod.fst).contains y.1 = true then none
        else some (y.2.key, y.1, y.2.size)) = some x := hye
    first
    | (rw [if_pos h1] at h3; cases h3)
    | (rw [if_neg h1] at h3
       by_cases h2 : (lf.map Prod.fst).contains y.1 = true
       · rw [if_pos h2] at h3
         cases h3
       · rw [if_neg h2] at h3
         injection h3 with h4
         rw [← h4]
         exact h1)
  | some sp =>
    have h3 : (if toLowerS (extOf y.1) = ".psd" then none
        else if (lf.map Prod.fst).contains y.1 = true then none
        else if pyStarts y.2.key sp = true then some (y.2.key, y.1, y.2.size) else none) =
        some x := hye
    first
    | (rw [if_pos h1] at h3; cases h3)
    | (rw [if_neg h1] at h3
       by_cases h2 : (lf.map Prod.fst).contains y.1 = true
       · rw [if_pos h2] at h3
         cases h3
       · rw [if_neg h2] at h3
         by_cases hst : pyStarts y.2.key sp = true
         · rw [if_pos hst] at h3
           injection h3 with h4
           rw [← h4]
           exact h1
         · rw [if_neg hst] at h3
           cases h3)

theorem orphanedFrom_scope (lf : List (String × FileInfo)) (s3F : List (String × S3Obj))
    (renameOld : List String) (pre base : String) (isFileSync : Bool) (sp : String)
    (hpath : ∀ x ∈ lf, x.2.path = base ++ "/" ++ x.1)
    (hfile : isFileSync = true → ∀ x ∈ lf, pre ++ x.1 = sp) :
    ∀ o ∈ orphanedFrom lf s3F renameOld pre base isFileSync (some sp),
      pyStarts (pre ++ o.2.1) sp = true := by
  intro o ho
  obtain ⟨x, hx, hxe⟩ := List.mem_filterMap.mp ho
  have h3 : (if renameOld.contains x.1 = true then none
      else if (List.lookup x.1 s3F).isSome = true then none
      else if (!isFileSync) = true then
        (if pyStarts (pre ++ relpathN x.2.path base) sp = true
          then some (x.2.path, x.1, x.2.size) else none)
      else some (x.2.path, x.1, x.2.size)) = some o := hxe
  by_cases h1 : renameOld.contains x.1 = true
  · rw [if_pos h1] at h3
    cases h3
  · rw [if_neg h1] at h3
    by_cases h2 : (List.lookup x.1 s3F).isSome = true
    · rw [if_pos h2] at h3
      cases h3
    · rw [if_neg h2] at h3
      by_cases hf : isFileSync = true
      · rw [if_neg (by simp [hf])] at h3
        injection h3 with h4
        have ho21 : o.2.1 = x.1 := by rw [← h4]
        rw [ho21, hfile hf x hx]
        exact pyStarts_refl sp
      · rw [if_pos (by simp [Bool.eq_false_iff.mpr hf])] at h3
        rw [hpath x hx, relpathN_join] at h3
        by_cases hst : pyStarts (pre ++ x.1) sp = true
        · rw [if_pos hst] at h3
          injection h3 with h4
          have ho21 : o.2.1 = x.1 := by rw [← h4]
          rw [ho21]
          exact hst
        · rw [if_neg hst] at h3
          cases h3

theorem snd_eq_of_keysNodup {α : Type} {m : List (String × α)} {p : String} {a b : α}
    (hnd : (m.map Prod.fst).Nodup) (ha : (p, a) ∈ m) (hb : (p, b) ∈ m) : a = b := by
  have h1 := lookup_of_mem_keysNodup m p a hnd ha
  have h2 := lookup_of_mem_keysNodup m p b hnd hb
  rw [h1] at h2
  injection h2

theorem mkKey_inj {pre a b : String} (h : mkKey pre a = mkKey pre b) : a = b := by
  unfold mkKey at h
  by_cases hp : (pre != "") = true
  · rw [if_pos hp, if_pos hp] at h
    exact strAppend_cancel h
  · rw [if_neg hp, if_neg hp] at h
    exact h

theorem s3FilesOf_mem {objs : List S3Obj} {pre : String} {x : String × S3Obj}
    (h : x ∈ s3FilesOf objs pre) :
    x.2 ∈ objs ∧ isMarker x.2 = false ∧ x.1 = stripPre pre x.2.key := by
  obtain ⟨o, ho, hoe⟩ := List.mem_filterMap.mp h
  have h3 : (if isMarker o = true then none else some (stripPre pre o.key, o)) = some x := hoe
  by_cases hmk : isMarker o = true
  · rw [if_pos hmk] at h3
    cases h3
  · rw [if_neg hmk] at h3
    injection h3 with h4
    have h5 : x.2 = o := (congrArg Prod.snd h4).symm
    have h6 : x.1 = stripPre pre o.key := (congrArg Prod.fst h4).symm
    refine ⟨by rw [h5]; exact ho, ?_, by rw [h5]; exact h6⟩
    rw [h5]
    simpa using hmk

theorem s3ActionFrom_shape {force : Bool} {lf : List (String × FileInfo)}
    {rN : List String} {isFileSync : Bool} {base rel : String} {o : S3Obj}
    {a : Tag × String × String}
    (h : s3ActionFrom force lf rN isFileSync base rel o = some a) :
    a.2.1 = o.key ∧ a.2.2 = localPathFor isFileSync base rel := by
  simp only [s3ActionFrom] at h
  by_cases hrn : rN.contains rel = true
  · rw [if_pos hrn] at h
    cases h
  · rw [if_neg hrn] at h
    cases hlk : List.lookup rel lf with
    | none =>
      rw [hlk] at h
      have h2 : some (Tag.newT, o.key, localPathFor isFileSync base rel) = some a := h
      injection h2 with h3
      rw [← h3]
      exact ⟨rfl, rfl⟩
    | some info =>
      rw [hlk] at h
      have h2 : (if (force || info.hash != o.etag) = true
          then some (Tag.updT, o.key, localPathFor isFileSync base rel)
          else none) = some a := h
      by_cases hc : (force || info.hash != o.etag) = true
      · rw [if_pos hc] at h2
        injection h2 with h3
        rw [← h3]
        exact ⟨rfl, rfl⟩
      · rw [if_neg hc] at h2
        cases h2

theorem matchedOf_mem {lf : List (String × FileInfo)} {objs : List S3Obj} {pre rel : String}
    {info : FileInfo} {o : S3Obj} (hmem : (rel, info) ∈ lf)
    (hs3 : List.lookup rel (s3FilesOf objs pre) = some o) (hhash : info.hash = o.etag) :
    rel ∈ matchedOf lf (s3FilesOf objs pre) := by
  apply List.mem_filterMap.mpr
  refine ⟨(rel, info), hmem, ?_⟩
  simp [hs3, hhash]

theorem matched_not_rename_tgt {lf : List (String × FileInfo)} {objs : List S3Obj}
    {pre : String} {θ : ℚ} {rel : String}
    (hmat : rel ∈ matchedOf lf (s3FilesOf objs pre)) :
    ((detectRenamesFrom lf objs pre θ (matchedOf lf (s3FilesOf objs pre))).map
      Cand.tgt).contains rel = false := by
  by_cases h : ((detectRenamesFrom lf objs pre θ (matchedOf lf (s3FilesOf objs pre))).map
      Cand.tgt).contains rel = true
  · exfalso
    rw [contains_iff] at h
    obtain ⟨r, hr, hre⟩ := List.mem_map.mp h
    have hshape := candidatesFrom_shape lf objs pre θ (matchedOf lf (s3FilesOf objs pre)) r
      (detectRenamesFrom_sub lf objs pre θ (matchedOf lf (s3FilesOf objs pre)) r hr)
    have h4 := hshape.2.2.2
    rw [hre] at h4
    have h5 := contains_iff.mpr hmat
    rw [h4] at h5
    exact absurd h5 (by decide)
  · simpa using h

/-! ## Claim theorems -/

set_option maxRecDepth 100000

/-- C3, counterexample: with two content-identical local files `ab.txt` and
`abc.txt` and a single remote `a.txt` carrying the same hash, the
download-direction `detect_renames` assigns BOTH local paths to the one S3
target (its second pass claims only the local side), so the target side of
the finalized assignment is not 1:1 as the claim states. -/
theorem download_rename_target_duplicated :
    ((detectRenamesFrom exDupLocal exDupObjs "games/pull-tabs/" (mkRat 7 10)
      (matchedOf exDupLocal (s3FilesOf exDupObjs "games/pull-tabs/"))).map Cand.tgt =
      ["a.txt", "a.txt"]) ∧
    ¬((detectRenamesFrom exDupLocal exDupObjs "games/pull-tabs/" (mkRat 7 10)
      (matchedOf exDupLocal (s3FilesOf exDupObjs "games/pull-tabs/"))).map Cand.tgt).Nodup := by
  decide

/-- C3, amended: the upload-direction `detect_renames` is 1:1 on both sides
(each S3 source key and each local target path appears in at most one
finalized pair); the download-direction `detect_renames` is 1:1 on the
source (old local path) side only — its target side can repeat. -/
theorem rename_assignment_uniqueness (lf : List (String × FileInfo)) (objs : List S3Obj)
    (pre : String) (θ : ℚ) (matched : List String) :
    ((detectRenamesTo lf objs pre θ matched).map Cand.src).Nodup ∧
    ((detectRenamesTo lf objs pre θ matched).map Cand.tgt).Nodup ∧
    ((detectRenamesFrom lf objs pre θ matched).map Cand.src).Nodup :=
  ⟨greedy2_src_nodup (sortCands (candidatesTo lf objs pre θ matched)) [] (by simp),
   greedy2_tgt_nodup (sortCands (candidatesTo lf objs pre θ matched)) [] (by simp),
   greedy1_src_nodup (sortCands (candidatesFrom lf objs pre θ matched)) [] (by simp)⟩

/-- C7: in both directions every finalized rename pair has base-filename
similarity at least the 0.7 threshold, and the greedy
descending-by-similarity assignment never selects a pair while a strictly
higher-similarity candidate sharing its source or target sits unclaimed:
upload direction — such a candidate's other side is always claimed by some
finalized pair; download direction — a higher-similarity candidate with the
same source cannot coexist with a selected pair at all, and one with the
same target always has its source claimed. -/
theorem rename_threshold_and_greedy (lf : List (String × FileInfo)) (objs : List S3Obj)
    (pre : String) (matched : List String) :
    (∀ c ∈ detectRenamesTo lf objs pre (mkRat 7 10) matched, mkRat 7 10 ≤ c.sim) ∧
    (∀ c ∈ detectRenamesFrom lf objs pre (mkRat 7 10) matched, mkRat 7 10 ≤ c.sim) ∧
    (∀ c ∈ detectRenamesTo lf objs pre (mkRat 7 10) matched,
      ∀ c1 ∈ candidatesTo lf objs pre (mkRat 7 10) matched, c.sim < c1.sim →
        (c1.src = c.src → ∃ d ∈ detectRenamesTo lf objs pre (mkRat 7 10) matched, d.tgt = c1.tgt) ∧
        (c1.tgt = c.tgt → ∃ d ∈ detectRenamesTo lf objs pre (mkRat 7 10) matched, d.src = c1.src)) ∧
    (∀ c ∈ detectRenamesFrom lf objs pre (mkRat 7 10) matched,
      ∀ c1 ∈ candidatesFrom lf objs pre (mkRat 7 10) matched, c.sim < c1.sim →
        c1.src ≠ c.src ∧
        (c1.tgt = c.tgt → ∃ d ∈ detectRenamesFrom lf objs pre (mkRat 7 10) matched, d.src = c1.src)) := by
  refine ⟨?_, ?_, ?_, ?_⟩
  · intro c hc
    exact (candidatesTo_shape lf objs pre (mkRat 7 10) matched c
      (detectRenamesTo_sub lf objs pre (mkRat 7 10) matched c hc)).1
  · intro c hc
    exact (candidatesFrom_shape lf objs pre (mkRat 7 10) matched c
      (detectRenamesFrom_sub lf objs pre (mkRat 7 10) matched c hc)).1
  · intro c hc c1 hc1 hsim
    have hcs : c1 ∈ sortCands (candidatesTo lf objs pre (mkRat 7 10) matched) :=
      (sortCands_mem _ c1).mpr hc1
    exact ⟨fun hsrc => greedy2_stable_src _ [] (sortCands_sorted _) c hc (by simp) c1 hcs hsim hsrc,
           fun htgt => greedy2_stable_tgt _ [] (sortCands_sorted _) c hc (by simp) c1 hcs hsim htgt⟩
  · intro c hc c1 hc1 hsim
    have hcs : c1 ∈ sortCands (candidatesFrom lf objs pre (mkRat 7 10) matched) :=
      (sortCands_mem _ c1).mpr hc1
    exact ⟨fun hsrc => greedy1_stable_src _ [] (sortCands_sorted _) c hc (by simp) c1 hcs hsim hsrc,
           fun htgt => greedy1_stable_tgt _ [] (sortCands_sorted _) c hc (by simp) c1 hcs hsim htgt⟩

/-- Witness for C7 at the concrete logo scenario: the finalized download
rename pair `(logo.png, logo-old.png)` has similarity 4/5, which the theorem
bounds from below by 7/10. -/
theorem rename_threshold_and_greedy_witness :
    mkRat 7 10 ≤ (⟨"logo.png", "logo-old.png", mkRat 4 5, "", "games/pull-tabs/logo-old.png"⟩ : Cand).sim :=
  (rename_threshold_and_greedy exLogoLocal exLogoObjs "games/pull-tabs/" []).2.1
    ⟨"logo.png", "logo-old.png", mkRat 4 5, "", "games/pull-tabs/logo-old.png"⟩ (by decide)

/-- C9, counterexample: for the non-existent path `sub/page.html`,
`parse_project_path` treats it as a file (so the remote key is shaped as a
flat key under the base prefix) while `sync_single_path` treats it as a
directory (so the sync scope is a directory prefix): the decision is NOT
applied consistently, and the `parse_project_path` rule also differs from
the claimed rule on `file.` (trailing dot). -/
theorem path_heuristics_disagree :
    isLikelyFileParse "sub/page.html" = true ∧
    isFileSingle "sub/page.html" = false ∧
    parseTreatsAsFile false false false "sub/page.html" = true ∧
    singleTreatsAsFile false false "sub/page.html" = false ∧
    specFileRule "sub/page.html" = false ∧
    isLikelyFileParse "file." = false ∧
    isFileSingle "file." = true := by
  decide

/-- C9, amended: both derivations consult the actual local type first; for
non-existent paths the scope derivation of `sync_single_path` implements
exactly the claimed rule (dot in the last segment and no separator anywhere),
while the remote-key derivation of `parse_project_path` instead requires a
non-empty extension after the final dot of the basename and ignores
separators in earlier segments — the two heuristics are not identical. -/
theorem path_kind_decision_rules :
    (∀ (f : Bool) (p : String),
      parseTreatsAsFile true true f p = false ∧
      parseTreatsAsFile true false true p = true ∧
      singleTreatsAsFile true f p = f) ∧
    (∀ p : String, isFileSingle p = specFileRule p) ∧
    (∀ p : String, isLikelyFileParse p = parseFileRule p) := by
  refine ⟨?_, ?_, ?_⟩
  · intro f p
    refine ⟨rfl, rfl, rfl⟩
  · intro p
    by_cases hs : hasChar '/' p = true
    · simp [isFileSingle, specFileRule, hs]
    · have hs2 : hasChar '/' p = false := by simpa using hs
      simp [isFileSingle, specFileRule, hs2, basenameS_of_noSlash p hs2]
  · intro p
    have hb := basenameS_noSlash p
    have hsl : (splitDotLast (basenameS p) == "/") = false := by
      apply beq_eq_false_iff_ne.mpr
      intro he
      have h1 : '/' ∈ (splitDotLast (basenameS p)).data := by
        rw [he]
        decide
      have h2 := splitDotLast_sub _ _ h1
      have h3 : (basenameS p).data.contains '/' = true := charList_contains_iff.mpr h2
      have h4 : (basenameS p).data.contains '/' = false := hb
      rw [h3] at h4
      cases h4
    simp [isLikelyFileParse, parseFileRule, hb, hsl, bne]

/-- Witness for C9 (amended) at `index.html`: both heuristics agree with
their characterizations on a plain root-level file name. -/
theorem path_kind_decision_rules_witness :
    isFileSingle "index.html" = specFileRule "index.html" ∧
    isLikelyFileParse "index.html" = parseFileRule "index.html" :=
  ⟨path_kind_decision_rules.2.1 "index.html", path_kind_decision_rules.2.2 "index.html"⟩

/-- C1: every proposed orphan/deletion candidate lies within the declared
sync scope.  Upload direction: each orphaned S3 key and each deleted folder
marker starts with the scope prefix whenever a scope is declared.  Download
direction: given the two facts the calling flow guarantees — scanned records
store `path = join(base, rel)`, and in single-file scope the only possible
local key is the scope's own file name — the reconstructed S3 key of every
orphaned local file starts with the scope prefix. -/
theorem orphan_candidates_within_scope :
    (∀ (lf : List (String × FileInfo)) (s3F : List (String × S3Obj)) (sp : String),
      ∀ x ∈ orphanedKeysTo lf s3F (some sp), pyStarts x.1 sp = true) ∧
    (∀ (objs : List S3Obj) (sp : String),
      ∀ k ∈ markersOf objs (some sp), pyStarts k sp = true) ∧
    (∀ (lf : List (String × FileInfo)) (s3F : List (String × S3Obj))
      (renameOld : List String) (pre base : String) (isFileSync : Bool) (sp : String),
      (∀ x ∈ lf, x.2.path = base ++ "/" ++ x.1) →
      (isFileSync = true → ∀ x ∈ lf, pre ++ x.1 = sp) →
      ∀ o ∈ orphanedFrom lf s3F renameOld pre base isFileSync (some sp),
        pyStarts (pre ++ o.2.1) sp = true) :=
  ⟨orphanedKeysTo_scope, markersOf_scope, orphanedFrom_scope⟩

/-- Witness for C1: a concrete orphan in each direction, shown in scope. -/
theorem orphan_candidates_within_scope_witness :
    pyStarts "games/pull-tabs/css/old.txt" "games/pull-tabs/css/" = true ∧
    pyStarts ("games/pull-tabs/css/" ++ "a.txt") "games/pull-tabs/css/" = true :=
  ⟨orphan_candidates_within_scope.1 [] (s3FilesOf exOrphanObjs "games/pull-tabs/css/")
      "games/pull-tabs/css/" ("games/pull-tabs/css/old.txt", "old.txt", 1) (by decide),
   orphan_candidates_within_scope.2.2 exIdLocal [] [] "games/pull-tabs/css/" "/proj/css"
      false "games/pull-tabs/css/" (by decide) (by decide)
      ("/proj/css/a.txt", "a.txt", 1) (by decide)⟩

/-- C2, counterexample: in `--yes` mode the upload direction deletes an
orphaned remote object with NO interactive confirmation anywhere in the run —
the trace holds the deletion and no prompt event at all, contradicting the
claim that every deletion is preceded by a yes/no confirmation in both
directions. -/
theorem upload_yes_deletes_without_confirmation :
    Event.deleteS3 "games/pull-tabs/css/old.txt" ∈
      (uploadYesRun [] exOrphanObjs "games/pull-tabs/css/" false
        (some "games/pull-tabs/css/")).2 ∧
    ∀ e ∈ (uploadYesRun [] exOrphanObjs "games/pull-tabs/css/" false
        (some "games/pull-tabs/css/")).2, e ≠ Event.promptE := by
  decide

/-- C2, amended: in `--yes` mode creates/updates/renames proceed without any
confirmation in both directions; the *download* direction always asks an
interactive yes/no confirmation before deleting local orphans, and a declined
or interrupted answer skips the deletions for the run, reports the skip, and
counts no failure — but the *upload* direction issues no prompt at all, so
its deletions also proceed unconfirmed. -/
theorem deletion_confirmation_policy (lf : List (String × FileInfo)) (objs : List S3Obj)
    (pre base : String) (isFileSync force : Bool) (scope : Option String)
    (answer : Option Bool) :
    (∀ e ∈ (uploadYesRun lf objs pre force scope).2, e ≠ Event.promptE) ∧
    (orphanedFrom lf (s3FilesOf objs pre)
        ((detectRenamesFrom lf objs pre (mkRat 7 10) (matchedOf lf (s3FilesOf objs pre))).map
          Cand.src) pre base isFileSync scope ≠ [] →
      Event.promptE ∈ (downloadYesRun lf objs pre base isFileSync force scope answer).2) ∧
    (orphanedFrom lf (s3FilesOf objs pre)
        ((detectRenamesFrom lf objs pre (mkRat 7 10) (matchedOf lf (s3FilesOf objs pre))).map
          Cand.src) pre base isFileSync scope ≠ [] →
      answer ≠ some true →
      (downloadYesRun lf objs pre base isFileSync force scope answer).1.deleted = 0 ∧
      (downloadYesRun lf objs pre base isFileSync force scope answer).1.failed = 0 ∧
      Event.reportSkippedDeletions ∈
        (downloadYesRun lf objs pre base isFileSync force scope answer).2) := by
  refine ⟨?_, ?_, ?_⟩
  · intro e he
    simp only [uploadYesRun, syncToS3Run, List.mem_append] at he
    rcases he with (he | he) | he
    · simp only [if_neg (by simp : ¬false = true), List.mem_map] at he
      obtain ⟨a, _, rfl⟩ := he
      simp
    · simp only [if_neg (by simp : ¬false = true), List.mem_map] at he
      obtain ⟨o, _, rfl⟩ := he
      simp
    · simp only [if_neg (by simp : ¬false = true), List.mem_map] at he
      obtain ⟨m, _, rfl⟩ := he
      simp
  · intro horph
    have hne : (orphanedFrom lf (s3FilesOf objs pre)
        ((detectRenamesFrom lf objs pre (mkRat 7 10) (matchedOf lf (s3FilesOf objs pre))).map
          Cand.src) pre base isFileSync scope).isEmpty = false := by
      cases h : orphanedFrom lf (s3FilesOf objs pre)
        ((detectRenamesFrom lf objs pre (mkRat 7 10) (matchedOf lf (s3FilesOf objs pre))).map
          Cand.src) pre base isFileSync scope with
      | nil => exact absurd h horph
      | cons a l => simp [h]
    simp [downloadYesRun, syncFromS3Run, hne]
  · intro horph hans
    have hne : (orphanedFrom lf (s3FilesOf objs pre)
        ((detectRenamesFrom lf objs pre (mkRat 7 10) (matchedOf lf (s3FilesOf objs pre))).map
          Cand.src) pre base isFileSync scope).isEmpty = false := by
      cases h : orphanedFrom lf (s3FilesOf objs pre)
        ((detectRenamesFrom lf objs pre (mkRat 7 10) (matchedOf lf (s3FilesOf objs pre))).map
          Cand.src) pre base isFileSync scope with
      | nil => exact absurd h horph
      | cons a l => simp [h]
    have hbeq : (answer == some true) = false := beq_eq_false_iff_ne.mpr hans
    refine ⟨?_, ?_, ?_⟩
    · simp [downloadYesRun, syncFromS3Run, hne, hbeq]
    · simp [downloadYesRun, syncFromS3Run]
    · simp [downloadYesRun, syncFromS3Run, hne, hbeq]

/-- Witness for C2 (amended): a concrete declined download run keeps its
orphan, prompts, deletes nothing, and reports the skip. -/
theorem deletion_confirmation_policy_witness :
    Event.promptE ∈ (downloadYesRun exIdLocal [] "games/pull-tabs/css/" "/proj/css"
      false false (some "games/pull-tabs/css/") (some false)).2 ∧
    (downloadYesRun exIdLocal [] "games/pull-tabs/css/" "/proj/css"
      false false (some "games/pull-tabs/css/") (some false)).1.deleted = 0 ∧
    Event.reportSkippedDeletions ∈ (downloadYesRun exIdLocal [] "games/pull-tabs/css/"
      "/proj/css" false false (some "games/pull-tabs/css/") (some false)).2 :=
  ⟨(deletion_confirmation_policy exIdLocal [] "games/pull-tabs/css/" "/proj/css" false false
      (some "games/pull-tabs/css/") (some false)).2.1 (by decide),
   ((deletion_confirmation_policy exIdLocal [] "games/pull-tabs/css/" "/proj/css" false false
      (some "games/pull-tabs/css/") (some false)).2.2 (by decide) (by decide)).1,
   ((deletion_confirmation_policy exIdLocal [] "games/pull-tabs/css/" "/proj/css" false false
      (some "games/pull-tabs/css/") (some false)).2.2 (by decide) (by decide)).2.2⟩

/-- C4, counterexample: in the upload direction `sync_to_s3` never forms a
rename (rename detection is disabled at line 582): on local `logo.png` /
remote `logo-old.png` with equal hashes the renamed tally stays 0 and the
pair is executed as an orphan deletion plus a fresh upload. -/
theorem upload_direction_no_rename_detection :
    (syncToS3Run exLogoLocal exLogoObjs "games/pull-tabs/" false false
      (some "games/pull-tabs/")).1.renamed = 0 ∧
    Event.deleteS3 "games/pull-tabs/logo-old.png" ∈
      (syncToS3Run exLogoLocal exLogoObjs "games/pull-tabs/" false false
        (some "games/pull-tabs/")).2 ∧
    Event.uploadE "games/pull-tabs/logo.png" ∈
      (syncToS3Run exLogoLocal exLogoObjs "games/pull-tabs/" false false
        (some "games/pull-tabs/")).2 := by
  decide

/-- C4, amended: only the download direction detects the logo pair as a
rename — `detect_renames` pairs local `logo.png` with remote `logo-old.png`
at similarity exactly 4/5 (not ≈0.82) and the executor performs it as
delete-old-local plus download-under-the-new-name, tallying one rename; the
upload direction handles the same pair as a deletion plus an upload. -/
theorem logo_rename_scenario :
    similarity "logo.png" "logo-old.png" = mkRat 4 5 ∧
    detectRenamesFrom exLogoLocal exLogoObjs "games/pull-tabs/" (mkRat 7 10)
      (matchedOf exLogoLocal (s3FilesOf exLogoObjs "games/pull-tabs/")) =
      [⟨"logo.png", "logo-old.png", mkRat 4 5, "", "games/pull-tabs/logo-old.png"⟩] ∧
    (syncFromS3Run exLogoLocal exLogoObjs "games/pull-tabs/" "/proj" false false false
      (some "games/pull-tabs/") (some true)).1.renamed = 1 ∧
    Event.deleteLocal "/proj/logo.png" ∈
      (syncFromS3Run exLogoLocal exLogoObjs "games/pull-tabs/" "/proj" false false false
        (some "games/pull-tabs/") (some true)).2 ∧
    Event.downloadE "games/pull-tabs/logo-old.png" "/proj/logo-old.png" ∈
      (syncFromS3Run exLogoLocal exLogoObjs "games/pull-tabs/" "/proj" false false false
        (some "games/pull-tabs/") (some true)).2 ∧
    (syncToS3Run exLogoLocal exLogoObjs "games/pull-tabs/" false false
      (some "games/pull-tabs/")).1.transferred = 1 := by
  decide

/-- C10: `.psd` files never participate in the upload direction: the scan
filter never emits one (so none is ever scanned or uploaded), the executor's
orphan scan never proposes one for deletion, the preview's orphan list never
contains one, every upload event's key comes from a scanned entry, and every
deletion event is either a scoped orphan — hence not `.psd` — or a folder
marker. -/
theorem psd_files_never_participate :
    (∀ (entries : List (String × FileInfo)) (e : String × FileInfo),
      e ∈ scanLocalFilesTo entries → toLowerS (extOf e.1) ≠ ".psd") ∧
    (∀ (lf : List (String × FileInfo)) (s3F : List (String × S3Obj)) (scope : Option String),
      ∀ x ∈ orphanedKeysTo lf s3F scope, toLowerS (extOf x.2.1) ≠ ".psd") ∧
    (∀ (lf : List (String × FileInfo)) (objs : List S3Obj) (pre scopeS : String)
      (force : Bool),
      ∀ p ∈ (previewTo lf objs pre scopeS force).orphaned, toLowerS (extOf p) ≠ ".psd") ∧
    (∀ (entries : List (String × FileInfo)) (objs : List S3Obj) (pre : String)
      (force dryRun : Bool) (scope : Option String) (k : String),
      Event.uploadE k ∈ (syncToS3Run (scanLocalFilesTo entries) objs pre force dryRun scope).2 →
      ∃ rel, k = mkKey pre rel ∧ toLowerS (extOf rel) ≠ ".psd") ∧
    (∀ (lf : List (String × FileInfo)) (objs : List S3Obj) (pre : String)
      (force dryRun : Bool) (scope : Option String) (k : String),
      Event.deleteS3 k ∈ (syncToS3Run lf objs pre force dryRun scope).2 →
      (∃ x ∈ orphanedKeysTo lf (s3FilesOf objs pre) scope,
        k = x.1 ∧ toLowerS (extOf x.2.1) ≠ ".psd") ∨ pyEnds k "/" = true) := by
  have hscan : ∀ (entries : List (String × FileInfo)) (e : String × FileInfo),
      e ∈ scanLocalFilesTo entries → toLowerS (extOf e.1) ≠ ".psd" := by
    intro entries e he hcon
    have hk := (List.mem_filter.mp he).2
    unfold scanKeepTo at hk
    simp only [Bool.and_eq_true] at hk
    obtain ⟨h1, h2⟩ := hk
    rw [extOf_basename] at h2
    rw [hcon] at h2
    exact absurd h2 (by decide)
  refine ⟨hscan, orphanedKeysTo_ext, ?_, ?_, ?_⟩
  · intro lf objs pre scopeS force p hp hcon
    obtain ⟨x, hx, hxe⟩ := List.mem_filterMap.mp hp
    have h3 : (if (lf.map Prod.fst).contains x.1 = true then none
        else if toLowerS (extOf x.1) = ".psd" then none
        else some x.1) = some p := hxe
    by_cases h1 : (lf.map Prod.fst).contains x.1 = true
    · rw [if_pos h1] at h3
      cases h3
    · rw [if_neg h1] at h3
      by_cases h2 : toLowerS (extOf x.1) = ".psd"
      · rw [if_pos h2] at h3
        cases h3
      · rw [if_neg h2] at h3
        injection h3 with h4
        rw [← h4] at hcon
        exact h2 hcon
  · intro entries objs pre force dryRun scope k hk
    obtain ⟨x, hx, hke⟩ := syncToS3Run_upload_mem _ objs pre force dryRun scope k hk
    exact ⟨x.1, hke, hscan entries x hx⟩
  · intro lf objs pre force dryRun scope k hk
    rcases syncToS3Run_delete_mem lf objs pre force dryRun scope k hk with ⟨x, hx, hke⟩ | h
    · exact Or.inl ⟨x, hx, hke, orphanedKeysTo_ext lf (s3FilesOf objs pre) scope x hx⟩
    · exact Or.inr h

/-- Witness for C10: the concrete scan keeps `art/logo.png`, whose extension
the theorem shows is not `.psd`. -/
theorem psd_files_never_participate_witness :
    toLowerS (extOf "art/logo.png") ≠ ".psd" :=
  psd_files_never_participate.1 exPsdEntries
    ("art/logo.png", ⟨"h6", 2, "/proj/assets/art/logo.png"⟩) (by decide)

/-- C5: a dry-run execution emits no event at all — no upload, download,
deletion or directory creation — in either direction, and it computes the
same per-path tallies as a real execution on the same inputs (for the
download direction, as a real execution whose deletion gate is confirmed,
since dry-run skips that gate). -/
theorem dry_run_same_counts_no_mutations (lf : List (String × FileInfo)) (objs : List S3Obj)
    (pre base : String) (isFileSync force : Bool) (scope : Option String) (ans : Option Bool) :
    (syncToS3Run lf objs pre force true scope).2 = [] ∧
    (syncFromS3Run lf objs pre base isFileSync force true scope ans).2 = [] ∧
    (syncToS3Run lf objs pre force true scope).1 = (syncToS3Run lf objs pre force false scope).1 ∧
    (syncFromS3Run lf objs pre base isFileSync force true scope ans).1 =
      (syncFromS3Run lf objs pre base isFileSync force false scope (some true)).1 := by
  refine ⟨?_, ?_, rfl, ?_⟩
  · simp [syncToS3Run]
  · simp [syncFromS3Run]
  · simp [syncFromS3Run]

/-- C6, counterexample: under `--force` the upload preview lists a file as
`changed` even though its local and remote hashes are equal (line 883), so an
identical file IS listed in the computed plan; the last two conjuncts show the
hashes agree on both sides for that very input. -/
theorem force_lists_identical_file_as_changed :
    "a.txt" ∈ (previewTo exIdLocal exIdObjs "games/pull-tabs/" "games/pull-tabs/" true).changed ∧
    List.lookup "a.txt" (previewS3FilesTo exIdObjs "games/pull-tabs/" "games/pull-tabs/") =
      some "h3" ∧
    (List.lookup "a.txt" exIdLocal).map FileInfo.hash = some "h3" := by
  decide

/-- C6, amended: a file present on both sides with the same relative path and
hash (under distinct local keys, visible in both scoped preview maps) is never
listed as new, orphaned, or renamed in either direction's plan, and never as
changed in the download plan; in the upload plan it is not listed as changed
without `--force`, but `--force` lists every co-present file — identical ones
included — as changed. -/
theorem identical_file_not_in_plan (lf : List (String × FileInfo)) (objs : List S3Obj)
    (pre scopeS : String) (force : Bool) (p : String) (info : FileInfo) (sz : Nat)
    (hnd : (lf.map Prod.fst).Nodup)
    (hmem : (p, info) ∈ lf)
    (hto : List.lookup p (previewS3FilesTo objs pre scopeS) = some info.hash)
    (hfrom : List.lookup p (previewS3FilesFrom objs pre scopeS) = some (info.hash, sz)) :
    p ∉ (previewTo lf objs pre scopeS false).newFiles ∧
    p ∉ (previewTo lf objs pre scopeS false).changed ∧
    p ∉ (previewTo lf objs pre scopeS force).orphaned ∧
    p ∉ (previewFrom lf objs pre scopeS).newFiles ∧
    p ∉ (previewFrom lf objs pre scopeS).changed ∧
    (∀ r ∈ (previewFrom lf objs pre scopeS).renames, r.src ≠ p ∧ r.tgt ≠ p) ∧
    p ∉ (previewFrom lf objs pre scopeS).orphaned := by
  have hpm : p ∈ matchedFromPreview lf (previewS3FilesFrom objs pre scopeS) := by
    apply List.mem_filterMap.mpr
    exact ⟨(p, info), hmem, by simp [hfrom]⟩
  refine ⟨?_, ?_, ?_, ?_, ?_, ?_, ?_⟩
  · intro hp
    have h2 := (List.mem_filter.mp hp).2
    rw [hto] at h2
    simp at h2
  · intro hp
    obtain ⟨x, hx, hxe⟩ := List.mem_filterMap.mp hp
    cases hlook : List.lookup x.1 (previewS3FilesTo objs pre scopeS) with
    | none => rw [hlook] at hxe; simp at hxe
    | some hsh =>
      rw [hlook] at hxe
      by_cases hb : (x.2.hash != hsh) = true
      · have h3 : (if (false || x.2.hash != hsh) = true then some x.1 else none) = some p := hxe
        rw [if_pos (by simp [hb])] at h3
        injection h3 with h4
        have hxp : (p, x.2) ∈ lf := by rw [← h4, Prod.mk.eta]; exact hx
        have hx2 : x.2 = info := snd_eq_of_keysNodup hnd hxp hmem
        rw [h4] at hlook
        rw [hto] at hlook
        injection hlook with h5
        rw [hx2, ← h5] at hb
        simp at hb
      · have h3 : (if (false || x.2.hash != hsh) = true then some x.1 else none) = some p := hxe
        rw [if_neg (by simp [hb])] at h3
        cases h3
  · intro hp
    obtain ⟨x, hx, hxe⟩ := List.mem_filterMap.mp hp
    have h3 : (if (lf.map Prod.fst).contains x.1 = true then none
        else if toLowerS (extOf x.1) = ".psd" then none else some x.1) = some p := hxe
    by_cases h1 : (lf.map Prod.fst).contains x.1 = true
    · rw [if_pos h1] at h3
      cases h3
    · rw [if_neg h1] at h3
      by_cases h2 : toLowerS (extOf x.1) = ".psd"
      · rw [if_pos h2] at h3
        cases h3
      · rw [if_neg h2] at h3
        injection h3 with h4
        rw [h4] at h1
        exact h1 (contains_iff.mpr (mem_map_fst hmem))
  · intro hp
    have h2 := (List.mem_filter.mp hp).2
    have h5 := contains_iff.mpr (mem_map_fst hmem)
    rw [h5] at h2
    simp at h2
  · intro hp
    obtain ⟨x, hx, hxe⟩ := List.mem_filterMap.mp hp
    cases hlook : List.lookup x.1 (previewS3FilesFrom objs pre scopeS) with
    | none => rw [hlook] at hxe; simp at hxe
    | some e =>
      rw [hlook] at hxe
      by_cases hb : (x.2.hash != e.1) = true
      · have h3 : (if (x.2.hash != e.1) = true then some x.1 else none) = some p := hxe
        rw [if_pos hb] at h3
        injection h3 with h4
        have hxp : (p, x.2) ∈ lf := by rw [← h4, Prod.mk.eta]; exact hx
        have hx2 : x.2 = info := snd_eq_of_keysNodup hnd hxp hmem
        rw [h4] at hlook
        rw [hfrom] at hlook
        injection hlook with h5
        rw [hx2, ← h5] at hb
        simp at hb
      · have h3 : (if (x.2.hash != e.1) = true then some x.1 else none) = some p := hxe
        rw [if_neg hb] at h3
        cases h3
  · intro r hr
    have hr2 : r ∈ detectRenamesFrom lf objs pre (mkRat 7 10)
        (matchedFromPreview lf (previewS3FilesFrom objs pre scopeS)) :=
      (List.mem_filter.mp hr).1
    have hsh := candidatesFrom_shape lf objs pre (mkRat 7 10)
      (matchedFromPreview lf (previewS3FilesFrom objs pre scopeS)) r
      (detectRenamesFrom_sub lf objs pre (mkRat 7 10)
        (matchedFromPreview lf (previewS3FilesFrom objs pre scopeS)) r hr2)
    constructor
    · intro hsrc
      obtain ⟨x, hx, hxs, hxm, _⟩ := hsh.2.1
      rw [hsrc] at hxs
      rw [← hxs] at hxm
      have h5 := contains_iff.mpr hpm
      rw [hxm] at h5
      exact absurd h5 (by decide)
    · intro htgt
      have h4 := hsh.2.2.2
      rw [htgt] at h4
      have h5 := contains_iff.mpr hpm
      rw [h4] at h5
      exact absurd h5 (by decide)
  · intro hp
    obtain ⟨x, hx, hxe⟩ := List.mem_filterMap.mp hp
    by_cases h1 : (List.lookup x.1 (previewS3FilesFrom objs pre scopeS)).isSome = true
    · rw [if_pos h1] at hxe
      cases hxe
    · rw [if_neg h1] at hxe
      by_cases h2 : (((detectRenamesFrom lf objs pre (mkRat 7 10)
          (matchedFromPreview lf (previewS3FilesFrom objs pre scopeS))).filter fun r =>
            if scopeS != "" then pyStarts r.tgtKey scopeS else true).any
          fun r => r.src == x.1) = true
      · rw [if_pos h2] at hxe
        cases hxe
      · rw [if_neg h2] at hxe
        injection hxe with h4
        rw [h4] at h1
        rw [hfrom] at h1
        simp at h1

/-- Witness for C6 (amended): the concrete identical file `a.txt` is absent
from the no-force upload `changed` list and from the download orphan list. -/
theorem identical_file_not_in_plan_witness :
    "a.txt" ∉ (previewTo exIdLocal exIdObjs "games/pull-tabs/" "games/pull-tabs/" false).changed ∧
    "a.txt" ∉ (previewFrom exIdLocal exIdObjs "games/pull-tabs/" "games/pull-tabs/").orphaned :=
  ⟨(identical_file_not_in_plan exIdLocal exIdObjs "games/pull-tabs/" "games/pull-tabs/" false
      "a.txt" ⟨"h3", 1, "/proj/css/a.txt"⟩ 1 (by decide) (by decide) (by decide) (by decide)).2.1,
   (identical_file_not_in_plan exIdLocal exIdObjs "games/pull-tabs/" "games/pull-tabs/" false
      "a.txt" ⟨"h3", 1, "/proj/css/a.txt"⟩ 1 (by decide) (by decide) (by decide)
      (by decide)).2.2.2.2.2.2⟩

/-- C8: force semantics.  For a file present on both sides under the same
relative path with equal hashes (given duplicate-free local keys and S3 keys),
`force=true` re-transfers it in both directions — the upload run uploads it
and the download run downloads it — while `force=false` skips it: no upload
and no download of that file appears anywhere in the respective run. -/
theorem force_retransfer_semantics (lf : List (String × FileInfo)) (objs : List S3Obj)
    (pre base : String) (isFileSync : Bool) (scope : Option String) (answer : Option Bool)
    (rel : String) (info : FileInfo) (o : S3Obj)
    (hndl : (lf.map Prod.fst).Nodup)
    (hndk : (objs.map S3Obj.key).Nodup)
    (hmem : (rel, info) ∈ lf)
    (hs3 : List.lookup rel (s3FilesOf objs pre) = some o)
    (hhash : info.hash = o.etag) :
    Event.uploadE (mkKey pre rel) ∈ (syncToS3Run lf objs pre true false scope).2 ∧
    Event.uploadE (mkKey pre rel) ∉ (syncToS3Run lf objs pre false false scope).2 ∧
    Event.downloadE o.key (localPathFor isFileSync base rel) ∈
      (syncFromS3Run lf objs pre base isFileSync true false scope answer).2 ∧
    Event.downloadE o.key (localPathFor isFileSync base rel) ∉
      (syncFromS3Run lf objs pre base isFileSync false false scope answer).2 := by
  have hmat : rel ∈ matchedOf lf (s3FilesOf objs pre) := matchedOf_mem hmem hs3 hhash
  have hrelkey : rel = stripPre pre o.key := (s3FilesOf_mem (lookup_mem _ rel o hs3)).2.2
  have hoobjs : o ∈ objs := (s3FilesOf_mem (lookup_mem _ rel o hs3)).1
  have hlk : List.lookup rel lf = some info := lookup_of_mem_keysNodup lf rel info hndl hmem
  refine ⟨?_, ?_, ?_, ?_⟩
  · have hact : localActionTo true (s3FilesOf objs pre)
        (matchedOf lf (s3FilesOf objs pre)) pre rel info = some (Tag.updT, mkKey pre rel) := by
      unfold localActionTo
      simp [hs3]
    exact List.mem_append_left _ (List.mem_append_left _
      (List.mem_map.mpr ⟨(Tag.updT, mkKey pre rel),
        List.mem_filterMap.mpr ⟨(rel, info), hmem, hact⟩, rfl⟩))
  · intro h
    simp only [syncToS3Run, List.mem_append] at h
    rcases h with (h | h) | h
    · simp only [if_neg (by simp : ¬false = true), List.mem_map] at h
      obtain ⟨a, ha, hae⟩ := h
      simp only [List.mem_filterMap] at ha
      obtain ⟨x, hx, hxe⟩ := ha
      have hkey := localActionTo_key false _ _ pre x.1 x.2 a hxe
      have hx1 : x.1 = rel := by
        injection hae with h2
        apply mkKey_inj
        rw [← hkey]
        exact h2
      have hxp : (rel, x.2) ∈ lf := by rw [← hx1, Prod.mk.eta]; exact hx
      have hx2 : x.2 = info := snd_eq_of_keysNodup hndl hxp hmem
      rw [hx1, hx2] at hxe
      unfold localActionTo at hxe
      have hc : ((matchedOf lf (s3FilesOf objs pre)).contains rel && !false) = true := by
        rw [contains_iff.mpr hmat]
        decide
      rw [if_pos hc] at hxe
      cases hxe
    · simp only [if_neg (by simp : ¬false = true), List.mem_map] at h
      obtain ⟨y, _, he⟩ := h
      cases he
    · simp only [if_neg (by simp : ¬false = true), List.mem_map] at h
      obtain ⟨y, _, he⟩ := h
      cases he
  · have hren : ((detectRenamesFrom lf objs pre (mkRat 7 10)
        (matchedOf lf (s3FilesOf objs pre))).map Cand.tgt).contains rel = false :=
      matched_not_rename_tgt hmat
    have hact : s3ActionFrom true lf
        ((detectRenamesFrom lf objs pre (mkRat 7 10)
          (matchedOf lf (s3FilesOf objs pre))).map Cand.tgt) isFileSync base rel o =
        some (Tag.updT, o.key, localPathFor isFileSync base rel) := by
      have hcond : ¬(((detectRenamesFrom lf objs pre (mkRat 7 10)
          (matchedOf lf (s3FilesOf objs pre))).map Cand.tgt).contains rel = true) := by
        rw [hren]
        decide
      simp only [s3ActionFrom]
      rw [if_neg hcond, hlk]
      show (if (true || info.hash != o.etag) = true
          then some (Tag.updT, o.key, localPathFor isFileSync base rel) else none) =
        some (Tag.updT, o.key, localPathFor isFileSync base rel)
      rw [if_pos (by simp)]
    exact List.mem_append_left _ (List.mem_append_left _ (List.mem_append_left _
      (List.mem_map.mpr ⟨(Tag.updT, o.key, localPathFor isFileSync base rel),
        List.mem_filterMap.mpr ⟨(rel, o), lookup_mem _ rel o hs3, hact⟩, rfl⟩)))
  · intro h
    simp only [syncFromS3Run, List.mem_append] at h
    rcases h with ((h | h) | h) | h
    · simp only [if_neg (by simp : ¬false = true), List.mem_map] at h
      obtain ⟨a, ha, hae⟩ := h
      simp only [List.mem_filterMap] at ha
      obtain ⟨x, hx, hxe⟩ := ha
      have hkey := (s3ActionFrom_shape hxe).1
      injection hae with h2 h3
      have hxk : x.2.key = o.key := by rw [← hkey]; exact h2
      have hx2 : x.2 = o := List.inj_on_of_nodup_map hndk (s3FilesOf_mem hx).1 hoobjs hxk
      have hx1 : x.1 = rel := by
        rw [(s3FilesOf_mem hx).2.2, hx2, ← hrelkey]
      rw [hx1, hx2] at hxe
      simp [s3ActionFrom, hlk, hhash] at hxe
    · simp only [if_neg (by simp : ¬false = true), List.mem_flatMap] at h
      obtain ⟨r, hr, he⟩ := h
      simp only [List.mem_cons, List.not_mem_nil, or_false] at he
      rcases he with he | he
      · cases he
      · injection he with h2 h3
        have hsh := candidatesFrom_shape lf objs pre (mkRat 7 10)
          (matchedOf lf (s3FilesOf objs pre)) r
          (detectRenamesFrom_sub lf objs pre (mkRat 7 10)
            (matchedOf lf (s3FilesOf objs pre)) r hr)
        obtain ⟨o2, ho2, hmk2, htk, htgt⟩ := hsh.2.2.1
        have ho2k : o2.key = o.key := by rw [← htk, ← h2]
        have ho2o : o2 = o := List.inj_on_of_nodup_map hndk ho2 hoobjs ho2k
        have hrt : r.tgt = rel := by rw [htgt, ho2o, ← hrelkey]
        have h4 := hsh.2.2.2
        rw [hrt] at h4
        have h5 := contains_iff.mpr hmat
        rw [h4] at h5
        exact absurd h5 (by decide)
    · split at h
      · simp only [List.mem_cons] at h
        rcases h with h | h
        · cases h
        · split at h
          · simp at h
          · simp only [List.mem_singleton] at h
            cases h
      · simp at h
    · simp only [if_neg (by simp : ¬false = true), List.mem_map] at h
      obtain ⟨y, _, he⟩ := h
      cases he

/-- Witness for C8: the identical concrete file is uploaded by the forced
upload run and absent from the unforced one. -/
theorem force_retransfer_semantics_witness :
    Event.uploadE (mkKey "games/pull-tabs/" "a.txt") ∈
      (syncToS3Run exIdLocal exIdObjs "games/pull-tabs/" true false none).2 ∧
    Event.uploadE (mkKey "games/pull-tabs/" "a.txt") ∉
      (syncToS3Run exIdLocal exIdObjs "games/pull-tabs/" false false none).2 :=
  ⟨(force_retransfer_semantics exIdLocal exIdObjs "games/pull-tabs/" "/proj/css" false none
      (some true) "a.txt" ⟨"h3", 1, "/proj/css/a.txt"⟩ ⟨"games/pull-tabs/a.txt", "h3", 1⟩
      (by decide) (by decide) (by decide) (by decide) (by decide)).1,
   (force_retransfer_semantics exIdLocal exIdObjs "games/pull-tabs/" "/proj/css" false none
      (some true) "a.txt" ⟨"h3", 1, "/proj/css/a.txt"⟩ ⟨"games/pull-tabs/a.txt", "h3", 1⟩
      (by decide) (by decide) (by decide) (by decide) (by decide)).2.1⟩

end S3Sync
